import Mathlib

/-
Shallow embedding of the velvet-downloader download orchestration engine
(src/downloader.py): error classification, format-catalog building, the
progress-phase state machine, worker cancellation, and terminal cleanup.

Modelling conventions, stated once here:
- Python strings are Lean strings; the substring operator is modelled over
  the character lists, and str.lower is modelled as a character-wise ASCII
  case map (every keyword and marker the code compares against is ASCII).
- Python float literals that the code multiplies and truncates (0.95, 0.1)
  are modelled as the exact rationals they denote; the percent values the
  progress regex extracts are likewise parsed as exact decimal rationals.
- Wall-clock instants returned by time.time are rational parameters.
- GUI widgets (progress bar value, status label, button visibility) are
  record fields; each distinct status literal the code writes becomes one
  constructor of an inductive status type.
-/

/- Model of the Python substring operator: isPrefL is list-prefix test,
   isSubL needle hay decides whether needle occurs contiguously in hay. -/
def isPrefL : List Char → List Char → Bool
  | [], _ => true
  | _ :: _, [] => false
  | a :: n, b :: h => a == b && isPrefL n h

def isSubL (n : List Char) : List Char → Bool
  | [] => n.isEmpty
  | b :: t => isPrefL n (b :: t) || isSubL n t

/- Model of the Python expression needle in hay for strings. -/
def strContains (hay needle : String) : Bool :=
  isSubL needle.data hay.data

/- Model of Python str.lower, as a character-wise ASCII case map. -/
def pyLower (s : String) : String :=
  ⟨s.data.map Char.toLower⟩

theorem isPrefL_iff : ∀ n h : List Char, isPrefL n h = true ↔ n <+: h
  | [], h => by simp [isPrefL]
  | a :: n, [] => by simp [isPrefL]
  | a :: n, b :: h => by
    simp only [isPrefL, Bool.and_eq_true, beq_iff_eq, List.cons_prefix_cons]
    exact and_congr Iff.rfl (isPrefL_iff n h)

theorem isSubL_iff : ∀ n h : List Char, isSubL n h = true ↔ n <:+: h
  | n, [] => by simp [isSubL, List.isEmpty_iff]
  | n, b :: t => by
    simp only [isSubL, Bool.or_eq_true, isPrefL_iff, isSubL_iff n t]
    constructor
    · rintro (hp | hi)
      · exact hp.isInfix
      · exact hi.trans (List.infix_cons (List.infix_refl t))
    · rintro ⟨s, e, he⟩
      match s, he with
      | [], he => exact Or.inl ⟨e, by simpa using he⟩
      | c :: s, he =>
        right
        exact ⟨s, e, by have h2 := congrArg List.tail he; simpa using h2⟩

theorem strContains_iff (hay needle : String) :
    strContains hay needle = true ↔ needle.data <:+: hay.data :=
  isSubL_iff _ _

/- Containment survives a character map, hence also lower-casing. -/
theorem strContains_map (hay needle : String) (f : Char → Char)
    (h : strContains hay needle = true) :
    isSubL (needle.data.map f) ((hay.data.map f)) = true := by
  rw [isSubL_iff]
  rcases (strContains_iff hay needle).1 h with ⟨s, e, he⟩
  exact ⟨s.map f, e.map f, by rw [← he]; simp⟩

theorem strContains_pyLower (hay needle : String)
    (hfix : needle.data.map Char.toLower = needle.data)
    (h : strContains hay needle = true) :
    strContains (pyLower hay) needle = true := by
  have := strContains_map hay needle Char.toLower h
  rw [hfix] at this
  simpa [strContains, pyLower] using this

/- Containment by a string implies containment by each of its infixes. -/
theorem strContains_of_infix (hay n₁ n₂ : String)
    (hsub : n₁.data <:+: n₂.data) (h : strContains hay n₂ = true) :
    strContains hay n₁ = true := by
  rw [strContains_iff] at h ⊢
  exact hsub.trans h

/- Numeric digit-list value, used by the int and float models below. -/
def digitsToNat (ds : List Char) : Nat :=
  ds.foldl (fun a c => a * 10 + (c.toNat - 48)) 0

/- Model of Python str.strip: drop whitespace from both ends. -/
def trimL (cs : List Char) : List Char :=
  ((cs.dropWhile Char.isWhitespace).reverse.dropWhile Char.isWhitespace).reverse

def pyStrip (s : String) : String :=
  ⟨trimL s.data⟩

/- Model of Python slicing s[:n]: the first n characters. -/
def pyTake (s : String) (n : Nat) : String :=
  ⟨s.data.take n⟩

/- Model of Python str.split(sep) for a one-character separator. -/
def splitOnChar (sep : Char) : List Char → List (List Char)
  | [] => [[]]
  | c :: t =>
    if c = sep then [] :: splitOnChar sep t
    else
      match splitOnChar sep t with
      | [] => [[c]]
      | p :: ps => (c :: p) :: ps

/- Model of Python int(s) on a string: optional surrounding whitespace,
   one optional sign, then a nonempty run of ASCII decimal digits.
   (Unicode digits and underscore separators, which do not occur in the
   resolution strings this program parses, are reported as failures.) -/
def pyIntParse (s : String) : Option Int :=
  match trimL s.data with
  | [] => none
  | c :: rest =>
    let sb : Int × List Char :=
      if c = '-' then (-1, rest) else if c = '+' then (1, rest) else (1, c :: rest)
    if sb.2.isEmpty then none
    else if sb.2.all Char.isDigit then some (sb.1 * (digitsToNat sb.2 : Int)) else none

/- Exact decimal value of a matched percent group: digits, optionally
   followed by a dot and further digits. Models float(group) exactly. -/
def parseDecimal (g : List Char) : ℚ :=
  let ip := g.takeWhile (fun c => c != '.')
  let rest := g.drop ip.length
  match rest with
  | [] => (digitsToNat ip : ℚ)
  | _ :: fp => (digitsToNat ip : ℚ) + (digitsToNat fp : ℚ) / (10 : ℚ) ^ fp.length

/- Model of matching the progress regex at the head of a character list:
   one or more digits, an optional dot-digits group, then a percent sign.
   Returns the matched numeric group. Mirrors the backtracking outcome of
   the original pattern: after a dot the fractional digits must themselves
   be followed by the percent sign, or the whole position fails. -/
def matchPercentAt (cs : List Char) : Option (List Char) :=
  let d1 := cs.takeWhile Char.isDigit
  if d1.isEmpty then none
  else
    match cs.drop d1.length with
    | '.' :: rest2 =>
      let d2 := rest2.takeWhile Char.isDigit
      if d2.isEmpty then none
      else
        match rest2.drop d2.length with
        | '%' :: _ => some (d1 ++ '.' :: d2)
        | _ => none
    | '%' :: _ => some d1
    | _ => none

/- Leftmost regex match over the whole line, as re.search does. -/
def findPercentAux : List Char → Option (List Char)
  | [] => none
  | c :: t =>
    match matchPercentAt (c :: t) with
    | some g => some g
    | none => findPercentAux t

/- Model of re.search for the percent pattern followed by float() on the
   captured group: the extracted percent value of a progress line. -/
def findPercent (line : String) : Option ℚ :=
  (findPercentAux line.data).map parseDecimal

/- Model of Python int() applied to a float: truncation toward zero. -/
def pyInt (q : ℚ) : Int :=
  if 0 ≤ q then Rat.floor q else -Rat.floor (-q)

theorem pyInt_of_nonneg (q : ℚ) (h : 0 ≤ q) : pyInt q = Rat.floor q := by
  simp [pyInt, h]

theorem Rat.floor_mono {p q : ℚ} (h : p ≤ q) : Rat.floor p ≤ Rat.floor q := by
  rw [Rat.le_floor]
  exact le_trans (Rat.le_floor.1 (le_refl (Rat.floor p))) h

theorem ratFloor_eq_intFloor (q : ℚ) : Rat.floor q = ⌊q⌋ := rfl

/- Evaluation helper: the floor of a concrete rational, via a fraction
   form established by norm_num and integer division. -/
theorem ratFloor_eval (q : ℚ) (n : ℤ) (d : ℕ) (h : q = (n : ℚ) / (d : ℚ)) :
    Rat.floor q = n / (d : ℤ) := by
  rw [ratFloor_eq_intFloor, h, Rat.floor_intCast_div_natCast]

/- ErrorHandler.get_error_message: keyword classification of the
   lower-cased error text, in the fixed source order. -/
def anyKw (es : String) (kws : List String) : Bool :=
  kws.any (fun kw => strContains es kw)

def get_error_message (error : String) : String × String :=
  let error_str := pyLower error
  if anyKw error_str ["getaddrinfo", "dns", "network", "connection", "no route"] then
    (("NETWORK"), ("🌐 Network error: Check your internet connection or try again later"))
  else if anyKw error_str ["403", "forbidden", "sign in", "authentication", "unauthorized"] then
    (("AUTH"), ("🔐 Authentication error: Video may be private or require login"))
  else if anyKw error_str ["404", "not found", "unavailable", "removed", "deleted"] then
    (("NOT_FOUND"), ("❌ Video not found: It may have been deleted or made private"))
  else if strContains error_str ("age") || strContains error_str ("restricted") then
    (("AGE_RESTRICTED"), ("⚠️ Age restricted: This video requires verification"))
  else if strContains error_str ("geographic") || strContains error_str ("country") then
    (("GEO_BLOCKED"), ("🌍 Geographic restriction: This video is not available in your region"))
  else if strContains error_str ("format") || strContains error_str ("no video formats") then
    (("FORMAT"), ("📋 Format error: No compatible formats available for this video"))
  else if strContains error_str ("rate") || strContains error_str ("throttle")
      || strContains error_str ("429") then
    (("RATE_LIMIT"), ("⏱️ Rate limited: Too many requests. Please wait and try again"))
  else if strContains error_str ("permission") || strContains error_str ("access denied") then
    (("PERMISSION"), ("🔒 Permission error: Cannot write to selected folder"))
  else if strContains error_str ("disk") || strContains error_str ("space")
      || strContains error_str ("no space") then
    (("DISK_SPACE"), ("💾 Insufficient disk space: Free up space and try again"))
  else
    (("GENERIC"), ("❌ Error: ") ++ pyTake error 100)

/- Specification-side classifier: the keyword groups of the spec, in its
   stated priority order, with first-match semantics. Used to check the
   claim that the code classifies by first match over these groups. -/
structure KwGroup where
  kind : String
  keywords : List String
  message : String

def classifierGroups : List KwGroup :=
  [⟨"NETWORK", ["getaddrinfo", "dns", "network", "connection", "no route"],
    "🌐 Network error: Check your internet connection or try again later"⟩,
   ⟨"AUTH", ["403", "forbidden", "sign in", "authentication", "unauthorized"],
    "🔐 Authentication error: Video may be private or require login"⟩,
   ⟨"NOT_FOUND", ["404", "not found", "unavailable", "removed", "deleted"],
    "❌ Video not found: It may have been deleted or made private"⟩,
   ⟨"AGE_RESTRICTED", ["age", "restricted"],
    "⚠️ Age restricted: This video requires verification"⟩,
   ⟨"GEO_BLOCKED", ["geographic", "country"],
    "🌍 Geographic restriction: This video is not available in your region"⟩,
   ⟨"FORMAT", ["format", "no video formats"],
    "📋 Format error: No compatible formats available for this video"⟩,
   ⟨"RATE_LIMIT", ["rate", "throttle", "429"],
    "⏱️ Rate limited: Too many requests. Please wait and try again"⟩,
   ⟨"PERMISSION", ["permission", "access denied"],
    "🔒 Permission error: Cannot write to selected folder"⟩,
   ⟨"DISK_SPACE", ["disk", "space", "no space"],
    "💾 Insufficient disk space: Free up space and try again"⟩]

/- First-match lookup over the ordered group list. -/
def classifyList (error : String) : List KwGroup → String × String
  | [] => (("GENERIC"), ("❌ Error: ") ++ pyTake error 100)
  | g :: gs =>
    if anyKw (pyLower error) g.keywords then (g.kind, g.message) else classifyList error gs

def classifySpec (error : String) : String × String :=
  classifyList error classifierGroups

set_option maxHeartbeats 2000000 in
set_option maxRecDepth 4096 in
theorem get_error_message_eq_spec (s : String) :
    get_error_message s = classifySpec s := by
  unfold get_error_message classifySpec classifierGroups
  simp only [classifyList, anyKw, List.any_cons, List.any_nil, Bool.or_false, Bool.or_assoc]

/- Python dictionary field values for string-valued keys: the key can be
   missing, present with value None, or present with a string. -/
inductive PyStr
  | absent
  | pynone
  | str (s : String)
deriving DecidableEq

/- Value of fmt.get(key): None for a missing key or a stored None. -/
def PyStr.get : PyStr → Option String
  | .str s => some s
  | _ => none

/- Value of fmt.get(key, d): the default only replaces a missing key; a
   stored None is returned as None. -/
def PyStr.getD (p : PyStr) (d : String) : Option String :=
  match p with
  | .absent => some d
  | .pynone => none
  | .str s => some s

/- Size field values: missing key, None, an exact integer, or a non-integer
   float whose only relevant trait besides not being an int is truthiness. -/
inductive PySize
  | absent
  | pynone
  | pint (n : Int)
  | pfloat (isZero : Bool)
deriving DecidableEq

/- Value of fmt.get(key, 0) for a size field. -/
def PySize.getD0 : PySize → PySize
  | .absent => .pint 0
  | v => v

/- Python truthiness of a size value. -/
def PySize.truthy : PySize → Bool
  | .absent => false
  | .pynone => false
  | .pint n => n != 0
  | .pfloat z => !z

/- A raw format record as fetched from the extraction library. -/
structure RawFormat where
  format_id : PyStr := .absent
  ext : PyStr := .absent
  resolution : PyStr := .absent
  format_note : PyStr := .absent
  vcodec : PyStr := .absent
  acodec : PyStr := .absent
  protocol : PyStr := .absent
  filesize : PySize := .absent
  filesize_approx : PySize := .absent
deriving DecidableEq

/- Value of the expression fmt.get('filesize', 0) or fmt.get('filesize_approx', 0). -/
def effSize (r : RawFormat) : PySize :=
  let a := r.filesize.getD0
  if a.truthy then a else r.filesize_approx.getD0

/- Value of: filesize if isinstance(filesize, int) else 0. -/
def sizeBytes (r : RawFormat) : Int :=
  match effSize r with
  | .pint n => n
  | _ => 0

/- Displayed size string: the mebibyte rendering when the byte count is
   truthy, the N/A marker otherwise. The numeric branch records the byte
   count it formats rather than the formatted decimal text. -/
inductive SizeStr
  | na
  | mib (bytes : Int)
deriving DecidableEq

def mkSizeStr (n : Int) : SizeStr :=
  if n != 0 then .mib n else .na

/- One entry of the dictionaries built by on_formats_fetched. -/
structure FmtEntry where
  format_code : Option String
  ext : Option String
  resolution : Option String
  filesize : PySize
  size_str : SizeStr
  size_bytes : Int
  format_note : Option String
  vcodec : String
  acodec : String
deriving DecidableEq

/- Value of the expression bool(c and c != 'none') for a codec field. -/
def hasCodec : PyStr → Bool
  | .str s => s ≠ "" && s ≠ "none"
  | _ => false

def mkVideoEntry (r : RawFormat) : FmtEntry :=
  { format_code := r.format_id.getD ("unknown")
    ext := r.ext.getD ("unknown")
    resolution := r.resolution.getD ("unknown")
    filesize := effSize r
    size_str := mkSizeStr (sizeBytes r)
    size_bytes := sizeBytes r
    format_note := r.format_note.getD ("")
    vcodec := (r.vcodec.get).getD ("")
    acodec := (r.acodec.get).getD ("") }

def mkAudioEntry (r : RawFormat) (extLower : String) : FmtEntry :=
  { format_code := r.format_id.getD ("unknown")
    ext := some extLower
    resolution := some ("Audio")
    filesize := effSize r
    size_str := mkSizeStr (sizeBytes r)
    size_bytes := sizeBytes r
    format_note := r.format_note.getD ("")
    vcodec := (r.vcodec.get).getD ("")
    acodec := (r.acodec.get).getD ("") }

/- Association lists with Python-dict update semantics: an update in place
   keeps the key position, a new key is appended, values() is the list of
   second components in insertion order. -/
def alookup (m : List (String × FmtEntry)) (k : String) : Option FmtEntry :=
  match m with
  | [] => none
  | kv :: rest => if kv.1 = k then some kv.2 else alookup rest k

def upsert (m : List (String × FmtEntry)) (k : String) (v : FmtEntry) :
    List (String × FmtEntry) :=
  match m with
  | [] => [(k, v)]
  | kv :: rest => if kv.1 = k then (k, v) :: rest else kv :: upsert rest k v

def preferredAudioExts : List String := ["mp3", "m4a", "webm", "aac"]

/- Value of the expression protocol == 'https' or protocol is None. -/
def protocolOK (r : RawFormat) : Bool :=
  match r.protocol.get with
  | none => true
  | some s => s = "https"

/- Largest-wins keyed insertion, as both deduplication dictionaries do it:
   a new key is stored, an existing key is replaced only by a strictly
   larger size_bytes. -/
def dedupIns (m : List (String × FmtEntry)) (k : String) (e : FmtEntry) :
    List (String × FmtEntry) :=
  match alookup m k with
  | none => upsert m k e
  | some cur => if e.size_bytes > cur.size_bytes then upsert m k e else m

/- One record of the first classification loop. The error value models the
   AttributeError raised by None.lower() when an audio-only record stores
   None under format_id; it is caught only by the function-level handler. -/
def processRecord (acc : List FmtEntry × List (String × FmtEntry)) (r : RawFormat) :
    Except Unit (List FmtEntry × List (String × FmtEntry)) :=
  let has_audio := hasCodec r.acodec
  let has_video := hasCodec r.vcodec
  if has_audio && has_video then
    .ok (acc.1 ++ [mkVideoEntry r], acc.2)
  else if has_audio && !has_video then
    match r.format_id.getD ("") with
    | none => .error ()
    | some fid =>
      if strContains (pyLower fid) ("-drc") then .ok acc
      else
        let ext := pyLower ((r.ext.get).getD (""))
        if decide (ext ∈ preferredAudioExts) && protocolOK r then
          .ok (acc.1, dedupIns acc.2 ext (mkAudioEntry r ext))
        else .ok acc
  else .ok acc

def targetResolutions : List (String × Int) :=
  [(("144p"), 144), (("480p"), 480), (("720p"), 720), (("1080p"), 1080)]

/- Outcome of: underscore, height = map(int, res_str.split('x')); any parse
   failure or a part count other than two raises into the inner handler. -/
def parseHeight (res_str : String) : Option Int :=
  match splitOnChar 'x' res_str.data with
  | [w, h] =>
    match pyIntParse ⟨w⟩, pyIntParse ⟨h⟩ with
    | some _, some hv => some hv
    | _, _ => none
  | _ => none

/- One entry of the resolution-bucket loop. The error value models the
   TypeError raised by evaluating 'x' in None when the stored resolution is
   None; it occurs outside the inner try and aborts the whole function. -/
def bucketStep (fl : List (String × FmtEntry)) (e : FmtEntry) :
    Except Unit (List (String × FmtEntry)) :=
  match e.resolution with
  | none => .error ()
  | some res_str =>
    if strContains res_str ("x") then
      match parseHeight res_str with
      | none => .ok fl
      | some height =>
        .ok (targetResolutions.foldl
          (fun acc p => if height = p.2 then dedupIns acc p.1 e else acc) fl)
    else .ok fl

/- Fold of an exception-raising step over a list, stopping at the first
   raise, as a Python for-loop does. -/
def foldE {σ α : Type} (f : σ → α → Except Unit σ) : σ → List α → Except Unit σ
  | s, [] => .ok s
  | s, a :: as =>
    match f s a with
    | .ok s2 => foldE f s2 as
    | .error e => .error e

def orderedResolutions : List String := ["1080p", "720p", "480p", "144p"]

/- Core of YTDownloader.on_formats_fetched: raw records to the displayed
   video list (fixed bucket order) and audio list (dict insertion order).
   The error case is the path where the function-level handler shows an
   error instead of emitting any formats. -/
def on_formats_fetched (formats : List RawFormat) :
    Except Unit (List FmtEntry × List FmtEntry) :=
  match foldE processRecord ([], []) formats with
  | .error e => .error e
  | .ok (vids, audMap) =>
    match foldE bucketStep [] vids with
    | .error e => .error e
    | .ok filtered =>
      .ok (orderedResolutions.filterMap (fun rn => alookup filtered rn),
           audMap.map (fun ka => ka.2))

/- Status label values: one constructor per distinct setText literal in the
   download flow, carrying the data interpolated into the text. -/
inductive StatusMsg
  | ready
  | starting
  | downloadingPct (pctInt : Int)
  | merging
  | completed
  | noFileProduced
  | cancelledMsg
  | movePermissionError
  | moveOSError (truncated : String)
  | moveFailed
  | errorMsg (m : String)
deriving DecidableEq

/- Orchestrator-visible state: YTDownloader fields plus the widget state it
   drives on its parent window, plus whether the staging directory of the
   current session exists on disk. -/
structure OrchState where
  is_downloading : Bool
  url_input_enabled : Bool
  browse_btn_enabled : Bool
  cancel_btn_visible : Bool
  open_file_btn_visible : Bool
  progressValue : Int
  status : StatusMsg
  is_downloading_phase : Bool
  is_merging_phase : Bool
  last_progress_update : ℚ
  temp_folder : Bool
  temp_exists : Bool
  last_downloaded_file : Option String
deriving DecidableEq

/- State at YTDownloader construction plus the initial Ready label. -/
def initialState : OrchState :=
  { is_downloading := false
    url_input_enabled := true
    browse_btn_enabled := true
    cancel_btn_visible := false
    open_file_btn_visible := false
    progressValue := 0
    status := .ready
    is_downloading_phase := true
    is_merging_phase := false
    last_progress_update := 0
    temp_folder := false
    temp_exists := false
    last_downloaded_file := none }

/- YTDownloader._reset_ui. -/
def reset_ui (s : OrchState) : OrchState :=
  { s with is_downloading := false
           url_input_enabled := true
           browse_btn_enabled := true
           cancel_btn_visible := false }

/- YTDownloader._cleanup_temp. Removal failures raised by the filesystem
   are swallowed by the code; the model treats removal as succeeding. -/
def cleanup_temp (s : OrchState) : OrchState :=
  if s.temp_folder && s.temp_exists then { s with temp_exists := false } else s

/- State effects of YTDownloader.start_download up to spawning the worker:
   UI lockdown, phase reset, and creation of the fresh temp staging
   directory. Note that last_progress_update is not reset here. -/
def start_download_state (s : OrchState) : OrchState :=
  { s with is_downloading := true
           url_input_enabled := false
           browse_btn_enabled := false
           cancel_btn_visible := true
           status := .starting
           progressValue := 0
           open_file_btn_visible := false
           is_downloading_phase := true
           is_merging_phase := false
           temp_folder := true
           temp_exists := true }

/- Test for the merge/ffmpeg/processing status lines. -/
def isMergeLine (line : String) : Bool :=
  strContains line ("[ffmpeg]") || strContains line ("Merging formats")
    || strContains line ("Processing")

/- YTDownloader.update_progress for one emitted line at wall time now. -/
def update_progress (s : OrchState) (line : String) (now : ℚ) : OrchState :=
  if isMergeLine line then
    if !s.is_merging_phase then
      { s with is_merging_phase := true
               is_downloading_phase := false
               progressValue := 95
               status := .merging }
    else s
  else
    match findPercent line with
    | some pct =>
      if s.is_downloading_phase then
        let actual_progress : Int := min (pyInt (pct * (95/100))) 95
        if now - s.last_progress_update > 1/10 then
          { s with progressValue := actual_progress
                   status := .downloadingPct (pyInt pct)
                   last_progress_update := now }
        else s
      else s
    | none => s

/- Outcome of the shutil.move call inside download_finished. -/
inductive MoveOutcome
  | ok
  | permError (e : String)
  | osError (e : String)
  | otherError (e : String)
deriving DecidableEq

/- YTDownloader.download_finished. The isfile flag is the outcome of the
   os.path.isfile check; the Windows permission grant is best-effort and
   state-invisible here; the moved file keeps its base name inside the
   chosen folder, recorded abstractly as the given path. -/
def download_finished (s : OrchState) (exit_code : Int) (temp_file_path : String)
    (isfile : Bool) (mv : MoveOutcome) : OrchState :=
  let s1 := reset_ui s
  if exit_code = 0 ∧ temp_file_path ≠ "" ∧ isfile = true then
    match mv with
    | .ok =>
      cleanup_temp { s1 with last_downloaded_file := some temp_file_path
                             progressValue := 100
                             status := .completed
                             open_file_btn_visible := true }
    | .permError _ => cleanup_temp { s1 with status := .movePermissionError }
    | .osError e => cleanup_temp { s1 with status := .moveOSError (pyTake e 50) }
    | .otherError _ => cleanup_temp { s1 with status := .moveFailed }
  else
    cleanup_temp { s1 with progressValue := 0, status := .noFileProduced }

/- YTDownloader.on_download_error. -/
def on_download_error (s : OrchState) (msg : String) : OrchState :=
  { reset_ui (cleanup_temp s) with status := .errorMsg msg }

/- UI effects of YTDownloader.cancel_download, after the bounded wait on
   the worker thread. -/
def cancel_download (s : OrchState) : OrchState :=
  cleanup_temp { reset_ui s with status := .cancelledMsg, progressValue := 0 }

/- A structured progress event handed to the yt-dlp progress hook. -/
structure HookEvent where
  status : Option String := none
  percent_str : Option String := none
  speed_str : Option String := none
  eta_str : Option String := none
  total_bytes_str : Option String := none
  err : Option String := none

/- DownloadThread.progress_hook: checks the cancel flag first and raises
   the DownloadCancelled condition (the error value) when it is set;
   otherwise returns the lines it emits for the event. -/
def progress_hook (cancelled : Bool) (d : HookEvent) : Except Unit (List String) :=
  if cancelled then .error ()
  else
    match d.status with
    | none => .ok []
    | some st =>
      if st = "downloading" then
        let pct := pyStrip ((d.percent_str).getD ("0%"))
        let speed := pyStrip ((d.speed_str).getD (""))
        let eta := pyStrip ((d.eta_str).getD (""))
        let total := (d.total_bytes_str).getD ("?")
        .ok [s!"[download] {pct} of {total} at {speed} ETA {eta}"]
      else if st = "finished" then
        .ok [("[download] 100%"), ("[download] Download completed. Processing...")]
      else if st = "error" then
        .ok [("[ERROR] ") ++ ((d.err).getD ("Unknown error"))]
      else .ok []

/- Exit of the body of DownloadThread.run: either the post-download file
   scan outcome, or one of the exceptions its handlers catch. -/
inductive RunBody
  | okFile (finalPath : String)
  | noValidOutput
  | noOutput
  | excCancelled
  | excDownloadError (e : String)
  | excOS (e : String)
  | excOther (e : String)
deriving DecidableEq

/- What the worker thread sends back to the orchestrator. -/
inductive WorkerEmit
  | finishedSig (exit_code : Int) (path : String)
  | errorSig (msg : String)
deriving DecidableEq

/- Signal dispatch of DownloadThread.run: the DownloadCancelled condition
   becomes the cancelled terminal result finished_signal(1, ''); every
   other exception is classified and emitted on the error signal. -/
def run_result : RunBody → WorkerEmit
  | .okFile p => .finishedSig 0 p
  | .noValidOutput => .errorSig ("No valid output file found")
  | .noOutput => .errorSig ("No output file found after download")
  | .excCancelled => .finishedSig 1 ("")
  | .excDownloadError e => .errorSig (get_error_message e).2
  | .excOS e => .errorSig (get_error_message e).2
  | .excOther e => .errorSig (get_error_message e).2

/- Cancellation raised inside a progress hook call propagates out of the
   download capability and is caught by the run handler. -/
def bodyOutcome (cancelledAtHook : Bool) (natural : RunBody) : RunBody :=
  if cancelledAtHook then .excCancelled else natural

/- End-to-end state after the user cancels an in-flight download: the
   cancel handler runs on the control thread while the worker's queued
   cancelled result finished_signal(1, '') is delivered afterwards, once
   the control thread re-enters the event loop. -/
def cancelFlowFinal (s : OrchState) : OrchState :=
  download_finished (cancel_download s) 1 ("") false .ok

theorem alookup_upsert_self (m : List (String × FmtEntry)) (k : String) (v : FmtEntry) :
    alookup (upsert m k v) k = some v := by
  induction m with
  | nil => simp [upsert, alookup]
  | cons kv rest ih =>
    by_cases h : kv.1 = k
    · simp [upsert, h, alookup]
    · simp [upsert, h, alookup, ih]

theorem alookup_upsert_ne (m : List (String × FmtEntry)) (k k2 : String) (v : FmtEntry)
    (h : k2 ≠ k) : alookup (upsert m k v) k2 = alookup m k2 := by
  induction m with
  | nil => simp [upsert, alookup, Ne.symm h]
  | cons kv rest ih =>
    by_cases hk : kv.1 = k
    · simp [upsert, hk, alookup, Ne.symm h]
    · simp only [upsert, hk, if_false, alookup]
      by_cases hk2 : kv.1 = k2 <;> simp [hk2, ih]

theorem mem_upsert (m : List (String × FmtEntry)) (k : String) (v : FmtEntry)
    (kv : String × FmtEntry) (h : kv ∈ upsert m k v) : kv = (k, v) ∨ kv ∈ m := by
  induction m with
  | nil => simpa [upsert] using h
  | cons kv2 rest ih =>
    by_cases hk : kv2.1 = k
    · simp only [upsert, hk, if_true] at h
      rcases List.mem_cons.1 h with h1 | h1
      · exact Or.inl h1
      · exact Or.inr (List.mem_cons_of_mem _ h1)
    · simp only [upsert, hk, if_false] at h
      rcases List.mem_cons.1 h with h1 | h1
      · exact Or.inr (h1 ▸ List.mem_cons_self _ _)
      · rcases ih h1 with h2 | h2
        · exact Or.inl h2
        · exact Or.inr (List.mem_cons_of_mem _ h2)

theorem mem_keys_upsert (m : List (String × FmtEntry)) (k : String) (v : FmtEntry)
    (x : String) (h : x ∈ (upsert m k v).map Prod.fst) :
    x ∈ m.map Prod.fst ∨ x = k := by
  rcases List.mem_map.1 h with ⟨kv, hkv, hx⟩
  rcases mem_upsert m k v kv hkv with h1 | h1
  · right; rw [← hx, h1]
  · left; exact List.mem_map.2 ⟨kv, h1, hx⟩

theorem nodup_keys_upsert (m : List (String × FmtEntry)) (k : String) (v : FmtEntry)
    (h : (m.map Prod.fst).Nodup) : ((upsert m k v).map Prod.fst).Nodup := by
  induction m with
  | nil => simp [upsert]
  | cons kv rest ih =>
    simp only [List.map_cons, List.nodup_cons] at h
    by_cases hk : kv.1 = k
    · simp only [upsert, hk, if_true, List.map_cons, List.nodup_cons]
      exact ⟨hk ▸ h.1, h.2⟩
    · simp only [upsert, hk, if_false, List.map_cons, List.nodup_cons]
      refine ⟨fun hc => ?_, ih h.2⟩
      rcases mem_keys_upsert rest k v kv.1 hc with h1 | h1
      · exact h.1 h1
      · exact hk h1

theorem alookup_mem (m : List (String × FmtEntry)) (k : String) (v : FmtEntry)
    (h : alookup m k = some v) : (k, v) ∈ m := by
  induction m with
  | nil => simp [alookup] at h
  | cons kv rest ih =>
    by_cases hk : kv.1 = k
    · simp only [alookup, hk, if_true, Option.some_inj] at h
      exact List.mem_cons.2 (Or.inl (by rw [← h, ← hk]))
    · simp only [alookup, hk, if_false] at h
      exact List.mem_cons_of_mem _ (ih h)

theorem alookup_dedupIns_self (m : List (String × FmtEntry)) (k : String) (e : FmtEntry) :
    (alookup (dedupIns m k e) k).isSome = true := by
  unfold dedupIns
  cases h : alookup m k with
  | none => simp [alookup_upsert_self]
  | some cur =>
    by_cases hgt : e.size_bytes > cur.size_bytes <;> simp [hgt, alookup_upsert_self, h]

theorem alookup_dedupIns_ne (m : List (String × FmtEntry)) (k k2 : String) (e : FmtEntry)
    (h : k2 ≠ k) : alookup (dedupIns m k e) k2 = alookup m k2 := by
  unfold dedupIns
  cases alookup m k with
  | none => exact alookup_upsert_ne m k k2 e h
  | some cur =>
    by_cases hgt : e.size_bytes > cur.size_bytes <;> simp [hgt, alookup_upsert_ne m k k2 e h]

theorem mem_dedupIns (m : List (String × FmtEntry)) (k : String) (e : FmtEntry)
    (kv : String × FmtEntry) (h : kv ∈ dedupIns m k e) : kv = (k, e) ∨ kv ∈ m := by
  unfold dedupIns at h
  split at h
  · exact mem_upsert m k e kv h
  · split at h
    · exact mem_upsert m k e kv h
    · exact Or.inr h

theorem nodup_keys_dedupIns (m : List (String × FmtEntry)) (k : String) (e : FmtEntry)
    (h : (m.map Prod.fst).Nodup) : ((dedupIns m k e).map Prod.fst).Nodup := by
  unfold dedupIns
  cases alookup m k with
  | none => exact nodup_keys_upsert m k e h
  | some cur =>
    by_cases hgt : e.size_bytes > cur.size_bytes
    · simpa [hgt] using nodup_keys_upsert m k e h
    · simpa [hgt] using h

/- Largest-wins insertion never shrinks the stored size of a key. -/
theorem alookup_dedupIns_ge (m : List (String × FmtEntry)) (k k2 : String)
    (e v : FmtEntry) (h : alookup m k2 = some v) :
    ∃ v2, alookup (dedupIns m k e) k2 = some v2 ∧ v.size_bytes ≤ v2.size_bytes := by
  by_cases hk : k2 = k
  · subst hk
    unfold dedupIns
    rw [h]
    by_cases hgt : e.size_bytes > v.size_bytes
    · exact ⟨e, by simp [hgt, alookup_upsert_self], le_of_lt hgt⟩
    · exact ⟨v, by simp [hgt, h], le_refl _⟩
  · exact ⟨v, by rw [alookup_dedupIns_ne m k k2 e hk]; exact h, le_refl _⟩

/- After largest-wins insertion the stored size of the key dominates the
   inserted entry. -/
theorem alookup_dedupIns_dom (m : List (String × FmtEntry)) (k : String) (e : FmtEntry) :
    ∃ v, alookup (dedupIns m k e) k = some v ∧ e.size_bytes ≤ v.size_bytes := by
  unfold dedupIns
  cases h : alookup m k with
  | none => exact ⟨e, by simp [alookup_upsert_self], le_refl _⟩
  | some cur =>
    by_cases hgt : e.size_bytes > cur.size_bytes
    · exact ⟨e, by simp [hgt, alookup_upsert_self], le_refl _⟩
    · exact ⟨cur, by simp [hgt, h], le_of_not_lt hgt⟩

/- Generic form of the two deduplication loops: each item optionally
   yields a key and an entry, and entries are inserted largest-wins. -/
def dedupStep {α : Type} (key : α → Option String) (ent : α → FmtEntry)
    (m : List (String × FmtEntry)) (a : α) : List (String × FmtEntry) :=
  match key a with
  | none => m
  | some k => dedupIns m k (ent a)

def dedupFold {α : Type} (key : α → Option String) (ent : α → FmtEntry)
    (m : List (String × FmtEntry)) (items : List α) : List (String × FmtEntry) :=
  items.foldl (dedupStep key ent) m

theorem dedupFold_persist {α : Type} (key : α → Option String) (ent : α → FmtEntry) :
    ∀ (items : List α) (m : List (String × FmtEntry)) (k : String) (v : FmtEntry),
    alookup m k = some v →
    ∃ v2, alookup (dedupFold key ent m items) k = some v2 ∧ v.size_bytes ≤ v2.size_bytes := by
  intro items
  induction items with
  | nil => exact fun m k v h => ⟨v, h, le_refl _⟩
  | cons a rest ih =>
    intro m k v h
    rw [dedupFold, List.foldl_cons]
    show ∃ v2, alookup (dedupFold key ent (dedupStep key ent m a) rest) k = some v2 ∧ _
    unfold dedupStep
    cases key a with
    | none => exact ih m k v h
    | some k2 =>
      rcases alookup_dedupIns_ge m k2 k (ent a) v h with ⟨v1, h1, h2⟩
      rcases ih (dedupIns m k2 (ent a)) k v1 h1 with ⟨v2, h3, h4⟩
      exact ⟨v2, h3, le_trans h2 h4⟩

theorem dedupFold_max {α : Type} (key : α → Option String) (ent : α → FmtEntry) :
    ∀ (items : List α) (m : List (String × FmtEntry)) (a : α) (k : String),
    a ∈ items → key a = some k →
    ∃ v, alookup (dedupFold key ent m items) k = some v ∧ (ent a).size_bytes ≤ v.size_bytes := by
  intro items
  induction items with
  | nil => intro m a k h; exact absurd h (List.not_mem_nil a)
  | cons b rest ih =>
    intro m a k hmem hk
    rw [dedupFold, List.foldl_cons]
    show ∃ v, alookup (dedupFold key ent (dedupStep key ent m b) rest) k = some v ∧ _
    rcases List.mem_cons.1 hmem with h1 | h1
    · subst h1
      have hstep : ∃ v1, alookup (dedupStep key ent m a) k = some v1 ∧
          (ent a).size_bytes ≤ v1.size_bytes := by
        unfold dedupStep
        rw [hk]
        exact alookup_dedupIns_dom m k (ent a)
      rcases hstep with ⟨v1, h2, h3⟩
      rcases dedupFold_persist key ent rest _ k v1 h2 with ⟨v2, h4, h5⟩
      exact ⟨v2, h4, le_trans h3 h5⟩
    · exact ih _ a k h1 hk

theorem dedupFold_mem {α : Type} (key : α → Option String) (ent : α → FmtEntry) :
    ∀ (items : List α) (m : List (String × FmtEntry)) (kv : String × FmtEntry),
    kv ∈ dedupFold key ent m items →
    kv ∈ m ∨ ∃ a, a ∈ items ∧ key a = some kv.1 ∧ kv.2 = ent a := by
  intro items
  induction items with
  | nil => exact fun m kv h => Or.inl h
  | cons b rest ih =>
    intro m kv h
    rw [dedupFold, List.foldl_cons] at h
    rcases ih (dedupStep key ent m b) kv h with h1 | h1
    · unfold dedupStep at h1
      cases hkb : key b with
      | none =>
        rw [hkb] at h1
        exact Or.inl h1
      | some k2 =>
        rw [hkb] at h1
        rcases mem_dedupIns m k2 (ent b) kv h1 with h2 | h2
        · refine Or.inr ⟨b, List.mem_cons_self _ _, ?_, ?_⟩
          · rw [hkb, h2]
          · rw [h2]
        · exact Or.inl h2
    · rcases h1 with ⟨a, ha, h2, h3⟩
      exact Or.inr ⟨a, List.mem_cons_of_mem _ ha, h2, h3⟩

theorem dedupFold_nodup {α : Type} (key : α → Option String) (ent : α → FmtEntry) :
    ∀ (items : List α) (m : List (String × FmtEntry)),
    (m.map Prod.fst).Nodup → ((dedupFold key ent m items).map Prod.fst).Nodup := by
  intro items
  induction items with
  | nil => exact fun m h => h
  | cons b rest ih =>
    intro m h
    rw [dedupFold, List.foldl_cons]
    refine ih _ ?_
    unfold dedupStep
    cases key b with
    | none => exact h
    | some k2 => exact nodup_keys_dedupIns m k2 (ent b) h

theorem dedupFold_lookup_none {α : Type} (key : α → Option String) (ent : α → FmtEntry) :
    ∀ (items : List α) (m : List (String × FmtEntry)) (k : String),
    alookup (dedupFold key ent m items) k = none ↔
      alookup m k = none ∧ ∀ a ∈ items, key a ≠ some k := by
  intro items
  induction items with
  | nil => simp [dedupFold]
  | cons b rest ih =>
    intro m k
    rw [dedupFold, List.foldl_cons]
    show alookup (dedupFold key ent (dedupStep key ent m b) rest) k = none ↔ _
    rw [ih]
    constructor
    · rintro ⟨h1, h2⟩
      unfold dedupStep at h1
      cases hkb : key b with
      | none =>
        rw [hkb] at h1
        refine ⟨h1, fun a ha => ?_⟩
        rcases List.mem_cons.1 ha with h3 | h3
        · rw [h3, hkb]; exact fun hc => Option.noConfusion hc
        · exact h2 a h3
      | some k2 =>
        rw [hkb] at h1
        by_cases hk2 : k = k2
        · subst hk2
          have := alookup_dedupIns_self m k (ent b)
          rw [h1] at this
          simp at this
        · rw [alookup_dedupIns_ne m k2 k (ent b) hk2] at h1
          refine ⟨h1, fun a ha => ?_⟩
          rcases List.mem_cons.1 ha with h3 | h3
          · rw [h3, hkb]
            intro hc
            exact hk2 (Option.some_inj.1 hc).symm
          · exact h2 a h3
    · rintro ⟨h1, h2⟩
      refine ⟨?_, fun a ha => h2 a (List.mem_cons_of_mem _ ha)⟩
      unfold dedupStep
      cases hkb : key b with
      | none => exact h1
      | some k2 =>
        have hne : k ≠ k2 := by
          intro hc
          exact h2 b (List.mem_cons_self _ _) (by rw [hkb, hc])
        rw [alookup_dedupIns_ne m k2 k (ent b) hne]
        exact h1

/- Classification predicates read off the record loop. -/
def isVideoCand (r : RawFormat) : Bool :=
  hasCodec r.acodec && hasCodec r.vcodec

/- Lower-cased extension an audio-only record is keyed by. -/
def audioExt (r : RawFormat) : String :=
  pyLower ((r.ext.get).getD (""))

/- The audio dictionary key a record produces, if it survives the drc,
   preferred-extension and protocol filters of the audio branch. -/
def audioKey (r : RawFormat) : Option String :=
  if hasCodec r.acodec && !hasCodec r.vcodec then
    match r.format_id.getD ("") with
    | none => none
    | some fid =>
      if strContains (pyLower fid) ("-drc") then none
      else if decide (audioExt r ∈ preferredAudioExts) && protocolOK r then
        some (audioExt r)
      else none
  else none

def audioEnt (r : RawFormat) : FmtEntry :=
  mkAudioEntry r (audioExt r)

/- The records on which the first loop raises: audio-only with None stored
   under format_id. -/
def audioRaiser (r : RawFormat) : Bool :=
  hasCodec r.acodec && !hasCodec r.vcodec && decide (r.format_id = .pynone)

theorem processRecord_eq (acc : List FmtEntry × List (String × FmtEntry)) (r : RawFormat) :
    processRecord acc r =
      if audioRaiser r then .error ()
      else .ok (acc.1 ++ (if isVideoCand r then [mkVideoEntry r] else []),
                dedupStep audioKey audioEnt acc.2 r) := by
  unfold processRecord audioRaiser isVideoCand audioKey audioEnt dedupStep audioExt
  cases ha : hasCodec r.acodec <;> cases hv : hasCodec r.vcodec <;>
      cases hfid : r.format_id <;>
    simp [ha, hv, hfid, PyStr.getD] <;> split_ifs <;> simp_all

/- A fold of an exception-raising step whose step is pure except on raiser
   items computes, when it succeeds, the pure fold. -/
theorem foldE_ok_of_pure {σ α : Type} (f : σ → α → Except Unit σ) (g : σ → α → σ)
    (raiser : α → Bool)
    (hf : ∀ s a, f s a = if raiser a then .error () else .ok (g s a)) :
    ∀ (items : List α) (s s2 : σ), foldE f s items = .ok s2 → s2 = items.foldl g s := by
  intro items
  induction items with
  | nil =>
    intro s s2 h
    rw [foldE] at h
    cases h
    simp
  | cons a rest ih =>
    intro s s2 h
    rw [foldE, hf] at h
    by_cases hr : raiser a = true
    · rw [if_pos hr] at h
      exact absurd h (by simp)
    · rw [if_neg hr] at h
      rw [List.foldl_cons]
      exact ih (g s a) s2 h

theorem prodFoldSplit :
    ∀ (formats : List RawFormat) (vs0 : List FmtEntry) (m0 : List (String × FmtEntry)),
    formats.foldl
      (fun acc r => (acc.1 ++ (if isVideoCand r then [mkVideoEntry r] else []),
                     dedupStep audioKey audioEnt acc.2 r)) (vs0, m0)
      = (vs0 ++ (formats.filter isVideoCand).map mkVideoEntry,
         dedupFold audioKey audioEnt m0 formats) := by
  intro formats
  induction formats with
  | nil => simp [dedupFold]
  | cons r rest ih =>
    intro vs0 m0
    rw [List.foldl_cons, ih]
    by_cases hr : isVideoCand r = true <;>
      simp [hr, List.filter_cons, dedupFold, List.foldl_cons]

/- Characterization of the first loop on success: the video list is the
   candidate records in order, the audio dictionary is the largest-wins
   fold keyed by audioKey. -/
theorem phase1_char (formats : List RawFormat) (vs : List FmtEntry)
    (m : List (String × FmtEntry))
    (h : foldE processRecord ([], []) formats = .ok (vs, m)) :
    vs = (formats.filter isVideoCand).map mkVideoEntry ∧
      m = dedupFold audioKey audioEnt [] formats := by
  have hg := foldE_ok_of_pure processRecord
    (fun acc r => (acc.1 ++ (if isVideoCand r then [mkVideoEntry r] else []),
                   dedupStep audioKey audioEnt acc.2 r))
    audioRaiser processRecord_eq formats ([], []) (vs, m) h
  rw [prodFoldSplit] at hg
  simp only [List.nil_append] at hg
  exact ⟨congrArg Prod.fst hg, congrArg Prod.snd hg⟩

/- Name of the resolution bucket a parsed height falls in. -/
def bucketName (h : Int) : Option String :=
  if h = 144 then some ("144p")
  else if h = 480 then some ("480p")
  else if h = 720 then some ("720p")
  else if h = 1080 then some ("1080p")
  else none

theorem targetFold_eq (fl : List (String × FmtEntry)) (e : FmtEntry) (h : Int) :
    targetResolutions.foldl (fun acc p => if h = p.2 then dedupIns acc p.1 e else acc) fl
      = match bucketName h with
        | none => fl
        | some k => dedupIns fl k e := by
  by_cases h1 : h = 144
  · subst h1; simp [targetResolutions, bucketName]
  · by_cases h2 : h = 480
    · subst h2; simp [targetResolutions, bucketName]
    · by_cases h3 : h = 720
      · subst h3; simp [targetResolutions, bucketName]
      · by_cases h4 : h = 1080
        · subst h4; simp [targetResolutions, bucketName]
        · simp [targetResolutions, bucketName, h1, h2, h3, h4]

/- The resolution bucket an already-built entry is keyed by. -/
def entryKey (e : FmtEntry) : Option String :=
  match e.resolution with
  | none => none
  | some rs =>
    if strContains rs ("x") then
      match parseHeight rs with
      | none => none
      | some hh => bucketName hh
    else none

/- Entries on which the bucket loop raises: a stored None resolution. -/
def vidRaiser (e : FmtEntry) : Bool :=
  decide (e.resolution = none)

theorem bucketStep_eq (fl : List (String × FmtEntry)) (e : FmtEntry) :
    bucketStep fl e =
      if vidRaiser e then .error () else .ok (dedupStep entryKey id fl e) := by
  unfold bucketStep vidRaiser dedupStep entryKey
  cases hres : e.resolution with
  | none => simp
  | some rs =>
    simp only [hres, decide_eq_true_eq, reduceCtorEq, if_false, id]
    by_cases hx : strContains rs ("x") = true
    · simp only [hx, if_true]
      cases hp : parseHeight rs with
      | none => simp
      | some hh =>
        dsimp only
        rw [targetFold_eq]
    · simp [hx]

theorem phase2_char (vids : List FmtEntry) (filtered : List (String × FmtEntry))
    (h : foldE bucketStep [] vids = .ok filtered) :
    filtered = dedupFold entryKey id [] vids :=
  foldE_ok_of_pure bucketStep (dedupStep entryKey id) vidRaiser bucketStep_eq vids [] filtered h

theorem alookup_of_mem_nodup (m : List (String × FmtEntry)) (k : String) (v : FmtEntry)
    (hnd : (m.map Prod.fst).Nodup) (h : (k, v) ∈ m) : alookup m k = some v := by
  induction m with
  | nil => simp at h
  | cons kv rest ih =>
    simp only [List.map_cons, List.nodup_cons] at hnd
    rcases List.mem_cons.1 h with h1 | h1
    · rw [← h1]
      simp [alookup]
    · have hk : kv.1 ≠ k := by
        intro hc
        exact hnd.1 (List.mem_map.2 ⟨(k, v), h1, hc.symm⟩)
      simp only [alookup, hk, if_false]
      exact ih hnd.2 h1

theorem dedupFold_lookup_src {α : Type} (key : α → Option String) (ent : α → FmtEntry)
    (items : List α) (k : String) (v : FmtEntry)
    (h : alookup (dedupFold key ent [] items) k = some v) :
    ∃ a, a ∈ items ∧ key a = some k ∧ v = ent a := by
  have hm := alookup_mem _ _ _ h
  rcases dedupFold_mem key ent items [] (k, v) hm with h1 | h1
  · simp at h1
  · exact h1

/- Unfolding of a successful on_formats_fetched into the two dedup folds. -/
theorem on_formats_fetched_ok (formats : List RawFormat) (vids auds : List FmtEntry)
    (h : on_formats_fetched formats = .ok (vids, auds)) :
    vids = orderedResolutions.filterMap
        (fun rn => alookup (dedupFold entryKey id []
          ((formats.filter isVideoCand).map mkVideoEntry)) rn) ∧
      auds = (dedupFold audioKey audioEnt [] formats).map (fun ka => ka.2) := by
  unfold on_formats_fetched at h
  split at h
  · exact absurd h (by simp)
  next vs audMap h1 =>
    split at h
    · exact absurd h (by simp)
    next filtered h2 =>
      obtain ⟨hvs, hm⟩ := phase1_char formats vs audMap h1
      have hf := phase2_char vs filtered h2
      have h4 := Except.ok.inj h
      obtain ⟨hA, hB⟩ := Prod.mk.inj h4
      subst hvs
      subst hm
      subst hf
      exact ⟨hA.symm, hB.symm⟩

/- Properties carried by every surviving audio key. -/
theorem audioKey_props (r : RawFormat) (k : String) (h : audioKey r = some k) :
    k = audioExt r ∧ k ∈ preferredAudioExts ∧ protocolOK r = true ∧
      (audioEnt r).ext = some k ∧
      ∃ fc, (audioEnt r).format_code = some fc ∧
        strContains (pyLower fc) ("-drc") = false := by
  unfold audioKey at h
  by_cases hg : (hasCodec r.acodec && !hasCodec r.vcodec) = true
  · rw [if_pos hg] at h
    cases hfid : r.format_id with
    | pynone =>
      rw [hfid] at h
      simp [PyStr.getD] at h
    | absent =>
      rw [hfid] at h
      simp only [PyStr.getD] at h
      split_ifs at h with hdrc hok
      all_goals simp at h
      rw [Bool.and_eq_true] at hok
      obtain rfl : k = audioExt r := h.symm
      refine ⟨rfl, of_decide_eq_true hok.1, hok.2, ?_, ("unknown"), ?_, by decide⟩
      · simp [audioEnt, mkAudioEntry]
      · simp [audioEnt, mkAudioEntry, hfid, PyStr.getD]
    | str fid =>
      rw [hfid] at h
      simp only [PyStr.getD] at h
      split_ifs at h with hdrc hok
      all_goals simp at h
      rw [Bool.and_eq_true] at hok
      obtain rfl : k = audioExt r := h.symm
      refine ⟨rfl, of_decide_eq_true hok.1, hok.2, ?_, fid, ?_, ?_⟩
      · simp [audioEnt, mkAudioEntry]
      · simp [audioEnt, mkAudioEntry, hfid, PyStr.getD]
      · simpa using hdrc
  · rw [if_neg hg] at h
    exact absurd h (by simp)

/- Mapping the bucket key over the final ordered video list. -/
theorem filterMap_alookup_map_key (fl : List (String × FmtEntry)) (bs : List String)
    (H : ∀ b v, alookup fl b = some v → entryKey v = some b) :
    (bs.filterMap (fun rn => alookup fl rn)).map entryKey
      = (bs.filter (fun b => (alookup fl b).isSome)).map some := by
  induction bs with
  | nil => simp
  | cons b rest ih =>
    cases hb : alookup fl b with
    | none => simp [List.filterMap_cons, hb, List.filter_cons, ih]
    | some v => simp [List.filterMap_cons, hb, List.filter_cons, H b v hb, ih]

/- Bucket of a raw record as the video pipeline computes it. -/
def rawVideoKey (r : RawFormat) : Option String :=
  if isVideoCand r then entryKey (mkVideoEntry r) else none

/- Shared abbreviations for the two dedup dictionaries of a build. -/
def videoDict (formats : List RawFormat) : List (String × FmtEntry) :=
  dedupFold entryKey id [] ((formats.filter isVideoCand).map mkVideoEntry)

def audioDict (formats : List RawFormat) : List (String × FmtEntry) :=
  dedupFold audioKey audioEnt [] formats

theorem videoDict_key (formats : List RawFormat) (b : String) (v : FmtEntry)
    (hb : alookup (videoDict formats) b = some v) : entryKey v = some b := by
  rcases dedupFold_lookup_src entryKey id _ b v hb with ⟨e, he, hk, hv2⟩
  rw [hv2]
  exact hk

theorem catalog_video_mem (formats : List RawFormat) (vids auds : List FmtEntry)
    (h : on_formats_fetched formats = .ok (vids, auds)) (v : FmtEntry) (hv : v ∈ vids) :
    ∃ rn, alookup (videoDict formats) rn = some v ∧ entryKey v = some rn := by
  obtain ⟨hvids, _⟩ := on_formats_fetched_ok formats vids auds h
  rw [hvids] at hv
  rcases List.mem_filterMap.1 hv with ⟨rn, _, hrn⟩
  exact ⟨rn, hrn, videoDict_key formats rn v hrn⟩

theorem catalog_video_max (formats : List RawFormat) (vids auds : List FmtEntry)
    (h : on_formats_fetched formats = .ok (vids, auds)) :
    ∀ v ∈ vids, ∀ r ∈ formats, ∀ k : String, isVideoCand r = true →
      entryKey (mkVideoEntry r) = some k → entryKey v = some k →
      sizeBytes r ≤ v.size_bytes := by
  intro v hvmem r hrmem k hcand hkr hkv
  rcases catalog_video_mem formats vids auds h v hvmem with ⟨rn, hlook, hkey⟩
  have hrnk : rn = k := Option.some_inj.1 (hkey.symm.trans hkv)
  subst hrnk
  have hmem : mkVideoEntry r ∈ (formats.filter isVideoCand).map mkVideoEntry :=
    List.mem_map.2 ⟨r, List.mem_filter.2 ⟨hrmem, hcand⟩, rfl⟩
  rcases dedupFold_max entryKey id _ [] (mkVideoEntry r) rn hmem hkr with ⟨w, hw, hsz⟩
  have hwv : w = v := Option.some_inj.1 (hw.symm.trans hlook)
  rw [hwv] at hsz
  exact hsz

theorem catalog_video_map_keys (formats : List RawFormat) (vids auds : List FmtEntry)
    (h : on_formats_fetched formats = .ok (vids, auds)) :
    vids.map entryKey
      = (orderedResolutions.filter
          (fun b => (alookup (videoDict formats) b).isSome)).map some := by
  obtain ⟨hvids, _⟩ := on_formats_fetched_ok formats vids auds h
  rw [hvids]
  exact filterMap_alookup_map_key _ _ (videoDict_key formats)

theorem catalog_video_nodup (formats : List RawFormat) (vids auds : List FmtEntry)
    (h : on_formats_fetched formats = .ok (vids, auds)) :
    (vids.map entryKey).Nodup := by
  rw [catalog_video_map_keys formats vids auds h]
  exact List.Nodup.map (Option.some_injective _)
    (List.Nodup.filter _ (by decide : orderedResolutions.Nodup))

theorem catalog_audio_src (formats : List RawFormat) (vids auds : List FmtEntry)
    (h : on_formats_fetched formats = .ok (vids, auds)) :
    ∀ a ∈ auds, ∃ k r, r ∈ formats ∧ audioKey r = some k ∧ a = audioEnt r ∧
      a.ext = some k ∧ (k, a) ∈ audioDict formats := by
  obtain ⟨_, hauds⟩ := on_formats_fetched_ok formats vids auds h
  intro a hamem
  rw [hauds] at hamem
  rcases List.mem_map.1 hamem with ⟨ka, hka, hae⟩
  rcases dedupFold_mem audioKey audioEnt formats [] ka hka with h1 | ⟨r, hr, hk, hent⟩
  · simp at h1
  · have props := audioKey_props r ka.1 hk
    refine ⟨ka.1, r, hr, hk, ?_, ?_, ?_⟩
    · rw [← hae, hent]
    · rw [← hae, hent]
      exact props.2.2.2.1
    · have : ka = (ka.1, a) := by
        rw [← hae]
      rw [← this]
      exact hka

theorem audioDict_nodup_keys (formats : List RawFormat) :
    ((audioDict formats).map Prod.fst).Nodup :=
  dedupFold_nodup audioKey audioEnt formats [] (by simp)

theorem catalog_audio_max (formats : List RawFormat) (vids auds : List FmtEntry)
    (h : on_formats_fetched formats = .ok (vids, auds)) :
    ∀ a ∈ auds, ∀ r ∈ formats, ∀ k : String, audioKey r = some k →
      a.ext = some k → sizeBytes r ≤ a.size_bytes := by
  intro a hamem r hrmem k hkr hkext
  rcases catalog_audio_src formats vids auds h a hamem with ⟨k2, r2, _, _, _, hext2, hmem2⟩
  have hk2 : k2 = k := Option.some_inj.1 (hext2.symm.trans hkext)
  subst hk2
  have hlook : alookup (audioDict formats) k2 = some a :=
    alookup_of_mem_nodup _ _ _ (audioDict_nodup_keys formats) hmem2
  rcases dedupFold_max audioKey audioEnt formats [] r k2 hrmem hkr with ⟨w, hw, hsz⟩
  have hwa : w = a := Option.some_inj.1 (hw.symm.trans hlook)
  rw [hwa] at hsz
  exact hsz

theorem catalog_audio_nodup (formats : List RawFormat) (vids auds : List FmtEntry)
    (h : on_formats_fetched formats = .ok (vids, auds)) :
    (auds.map FmtEntry.ext).Nodup := by
  obtain ⟨_, hauds⟩ := on_formats_fetched_ok formats vids auds h
  rw [hauds]
  have hdef : dedupFold audioKey audioEnt [] formats = audioDict formats := rfl
  have hmapeq : (audioDict formats).map (fun ka => FmtEntry.ext ka.2)
      = (audioDict formats).map (fun ka => some ka.1) := by
    apply List.map_congr_left
    intro ka hka
    rcases dedupFold_mem audioKey audioEnt formats [] ka hka with h1 | ⟨r, _, hk, hent⟩
    · simp at h1
    · rw [hent]
      exact (audioKey_props r ka.1 hk).2.2.2.1
  rw [hdef, List.map_map, show (FmtEntry.ext ∘ fun (ka : String × FmtEntry) => ka.2)
    = (fun (ka : String × FmtEntry) => FmtEntry.ext ka.2) from rfl, hmapeq]
  rw [show (fun (ka : String × FmtEntry) => some ka.1) = some ∘ Prod.fst from rfl,
    ← List.map_map]
  exact List.Nodup.map (Option.some_injective _) (audioDict_nodup_keys formats)

theorem videoDict_present (formats : List RawFormat) (b : String) :
    (alookup (videoDict formats) b).isSome
      = formats.any (fun r => rawVideoKey r == some b) := by
  apply Bool.eq_iff_iff.mpr
  constructor
  · intro hs
    rcases Option.isSome_iff_exists.1 hs with ⟨v, hv⟩
    rcases dedupFold_lookup_src entryKey id _ b v hv with ⟨e, he, hk, _⟩
    rcases List.mem_map.1 he with ⟨r, hrf, rfl⟩
    rcases List.mem_filter.1 hrf with ⟨hr, hc⟩
    refine List.any_eq_true.2 ⟨r, hr, ?_⟩
    rw [beq_iff_eq, rawVideoKey, if_pos hc]
    exact hk
  · intro hany
    rcases List.any_eq_true.1 hany with ⟨r, hr, hp⟩
    rw [beq_iff_eq, rawVideoKey] at hp
    by_cases hc : isVideoCand r = true
    · rw [if_pos hc] at hp
      have hmem : mkVideoEntry r ∈ (formats.filter isVideoCand).map mkVideoEntry :=
        List.mem_map.2 ⟨r, List.mem_filter.2 ⟨hr, hc⟩, rfl⟩
      rcases dedupFold_max entryKey id _ [] (mkVideoEntry r) b hmem hp with ⟨w, hw, _⟩
      have : alookup (videoDict formats) b = some w := hw
      rw [this]
      rfl
    · rw [if_neg hc] at hp
      exact absurd hp (by simp)

/-- C2: for every raw format list the builder emits at most one video
format per resolution bucket and at most one audio format per container
extension, and in each bucket or extension the emitted candidate's byte
size dominates the byte size of every candidate with the same key. -/
theorem c2_catalog_dedup_largest (formats : List RawFormat) (vids auds : List FmtEntry)
    (h : on_formats_fetched formats = Except.ok (vids, auds)) :
    ((vids.map entryKey).Nodup ∧
      ∀ v ∈ vids, ∀ r ∈ formats, ∀ k : String, isVideoCand r = true →
        entryKey (mkVideoEntry r) = some k → entryKey v = some k →
        sizeBytes r ≤ v.size_bytes) ∧
    ((auds.map FmtEntry.ext).Nodup ∧
      ∀ a ∈ auds, ∀ r ∈ formats, ∀ k : String, audioKey r = some k →
        a.ext = some k → sizeBytes r ≤ a.size_bytes) :=
  ⟨⟨catalog_video_nodup formats vids auds h, catalog_video_max formats vids auds h⟩,
   ⟨catalog_audio_nodup formats vids auds h, catalog_audio_max formats vids auds h⟩⟩

def c2exFormats : List RawFormat :=
  [{ format_id := .str ("a"), resolution := .str ("1920x1080"),
     vcodec := .str ("avc1"), acodec := .str ("mp4a"), filesize := .pint 400000 },
   { format_id := .str ("b"), resolution := .str ("1920x1080"),
     vcodec := .str ("avc1"), acodec := .str ("mp4a"), filesize := .pint 600000 },
   { format_id := .str ("x"), ext := .str ("m4a"), vcodec := .str ("none"),
     acodec := .str ("mp4a"), protocol := .str ("https"), filesize := .pint 100 },
   { format_id := .str ("y"), ext := .str ("m4a"), vcodec := .str ("none"),
     acodec := .str ("mp4a"), protocol := .str ("https"), filesize := .pint 200 }]

def c2exOut : List FmtEntry × List FmtEntry :=
  ((on_formats_fetched c2exFormats).toOption).getD ([], [])

theorem c2_catalog_dedup_largest_witness :
    on_formats_fetched c2exFormats = Except.ok (c2exOut.1, c2exOut.2) ∧
    (((c2exOut.1.map entryKey).Nodup ∧
      ∀ v ∈ c2exOut.1, ∀ r ∈ c2exFormats, ∀ k : String, isVideoCand r = true →
        entryKey (mkVideoEntry r) = some k → entryKey v = some k →
        sizeBytes r ≤ v.size_bytes) ∧
     ((c2exOut.2.map FmtEntry.ext).Nodup ∧
      ∀ a ∈ c2exOut.2, ∀ r ∈ c2exFormats, ∀ k : String, audioKey r = some k →
        a.ext = some k → sizeBytes r ≤ a.size_bytes)) :=
  ⟨rfl, c2_catalog_dedup_largest c2exFormats c2exOut.1 c2exOut.2 rfl⟩

/-- C5: every emitted audio format has a lower-cased extension in the
preferred set, originates from a record whose transport protocol is https
or unspecified, and carries a format identifier free of the DRC marker. -/
theorem c5_audio_filters (formats : List RawFormat) (vids auds : List FmtEntry)
    (h : on_formats_fetched formats = Except.ok (vids, auds)) :
    ∀ a ∈ auds, ∃ k : String, a.ext = some k ∧ k ∈ preferredAudioExts ∧
      (∃ fc, a.format_code = some fc ∧ strContains (pyLower fc) ("-drc") = false) ∧
      ∃ r, r ∈ formats ∧ audioKey r = some k ∧ protocolOK r = true ∧ a = audioEnt r := by
  intro a hamem
  rcases catalog_audio_src formats vids auds h a hamem with ⟨k, r, hr, hk, hent, hext, _⟩
  have props := audioKey_props r k hk
  refine ⟨k, hext, props.2.1, ?_, r, hr, hk, props.2.2.1, hent⟩
  rcases props.2.2.2.2 with ⟨fc, hfc, hdrc⟩
  exact ⟨fc, by rw [hent]; exact hfc, hdrc⟩

def c5exFormats : List RawFormat :=
  [{ format_id := .str ("140"), ext := .str ("M4A"), vcodec := .str ("none"),
     acodec := .str ("mp4a"), protocol := .str ("https"), filesize := .pint 128000 },
   { format_id := .str ("251-drc"), ext := .str ("webm"), vcodec := .str ("none"),
     acodec := .str ("opus"), protocol := .str ("https"), filesize := .pint 999999 },
   { format_id := .str ("330"), ext := .str ("ogg"), vcodec := .str ("none"),
     acodec := .str ("vorbis"), protocol := .str ("https"), filesize := .pint 5 },
   { format_id := .str ("251"), ext := .str ("webm"), vcodec := .str ("none"),
     acodec := .str ("opus"), protocol := .str ("m3u8"), filesize := .pint 7 }]

def c5exOut : List FmtEntry × List FmtEntry :=
  ((on_formats_fetched c5exFormats).toOption).getD ([], [])

theorem c5_audio_filters_witness :
    on_formats_fetched c5exFormats = Except.ok (c5exOut.1, c5exOut.2) ∧
    (∀ a ∈ c5exOut.2, ∃ k : String, a.ext = some k ∧ k ∈ preferredAudioExts ∧
      (∃ fc, a.format_code = some fc ∧ strContains (pyLower fc) ("-drc") = false) ∧
      ∃ r, r ∈ c5exFormats ∧ audioKey r = some k ∧ protocolOK r = true ∧ a = audioEnt r) :=
  ⟨rfl, c5_audio_filters c5exFormats c5exOut.1 c5exOut.2 rfl⟩

/-- C9: the emitted video list is keyed exactly by the subsequence of the
fixed descending bucket order 1080p, 720p, 480p, 144p whose buckets are
present among the input's video candidates. -/
theorem c9_video_order (formats : List RawFormat) (vids auds : List FmtEntry)
    (h : on_formats_fetched formats = Except.ok (vids, auds)) :
    vids.map entryKey
      = (orderedResolutions.filter
          (fun b => formats.any (fun r => rawVideoKey r == some b))).map some := by
  rw [catalog_video_map_keys formats vids auds h]
  congr 1
  apply List.filter_congr
  intro b _
  exact videoDict_present formats b

def c9exFormats : List RawFormat :=
  [{ format_id := .str ("a"), resolution := .str ("640x480"),
     vcodec := .str ("avc1"), acodec := .str ("mp4a"), filesize := .pint 1000 },
   { format_id := .str ("b"), resolution := .str ("1920x1080"),
     vcodec := .str ("avc1"), acodec := .str ("mp4a"), filesize := .pint 3000 },
   { format_id := .str ("c"), resolution := .str ("1024x768"),
     vcodec := .str ("avc1"), acodec := .str ("mp4a"), filesize := .pint 2000 }]

def c9exOut : List FmtEntry × List FmtEntry :=
  ((on_formats_fetched c9exFormats).toOption).getD ([], [])

theorem c9_video_order_witness :
    on_formats_fetched c9exFormats = Except.ok (c9exOut.1, c9exOut.2) ∧
    c9exOut.1.map entryKey
      = (orderedResolutions.filter
          (fun b => c9exFormats.any (fun r => rawVideoKey r == some b))).map some :=
  ⟨rfl, c9_video_order c9exFormats c9exOut.1 c9exOut.2 rfl⟩

/-- C10: the deduplication comparison size equals the filesize value (with
its filesize_approx fallback) exactly when that value is an exact integer
and is 0 otherwise; a comparison size of 0 renders the N/A size string;
and a candidate whose only size is non-integer always loses deduplication
against a same-key candidate with a positive integer size. -/
theorem c10_size_semantics :
    (∀ (r : RawFormat) (n : Int), effSize r = PySize.pint n → sizeBytes r = n) ∧
    (∀ r : RawFormat, (∀ n : Int, effSize r ≠ PySize.pint n) → sizeBytes r = 0) ∧
    (∀ r : RawFormat, sizeBytes r = 0 → (mkVideoEntry r).size_str = SizeStr.na ∧
      ∀ extL : String, (mkAudioEntry r extL).size_str = SizeStr.na) ∧
    (∀ (formats : List RawFormat) (vids auds : List FmtEntry),
      on_formats_fetched formats = Except.ok (vids, auds) →
      (∀ (r r2 : RawFormat) (k : String), r ∈ formats → r2 ∈ formats →
        audioKey r = some k → sizeBytes r = 0 →
        audioKey r2 = some k → 0 < sizeBytes r2 →
        ∀ a ∈ auds, a.ext = some k → 0 < a.size_bytes ∧ a ≠ audioEnt r) ∧
      (∀ (r r2 : RawFormat) (k : String), r ∈ formats → r2 ∈ formats →
        isVideoCand r = true → entryKey (mkVideoEntry r) = some k → sizeBytes r = 0 →
        isVideoCand r2 = true → entryKey (mkVideoEntry r2) = some k → 0 < sizeBytes r2 →
        ∀ v ∈ vids, entryKey v = some k → 0 < v.size_bytes ∧ v ≠ mkVideoEntry r)) := by
  refine ⟨?_, ?_, ?_, ?_⟩
  · intro r n hn
    rw [sizeBytes, hn]
  · intro r hne
    rw [sizeBytes]
    cases he : effSize r with
    | pint n => exact absurd he (hne n)
    | absent => rfl
    | pynone => rfl
    | pfloat z => rfl
  · intro r h0
    exact ⟨by simp [mkVideoEntry, mkSizeStr, h0],
           fun extL => by simp [mkAudioEntry, mkSizeStr, h0]⟩
  · intro formats vids auds hok
    constructor
    · intro r r2 k _ hr2 _ hr0 hk2 hr2pos a ha hext
      have h1 := catalog_audio_max formats vids auds hok a ha r2 hr2 k hk2 hext
      have hpos : 0 < a.size_bytes := lt_of_lt_of_le hr2pos h1
      refine ⟨hpos, fun heq => ?_⟩
      rw [heq] at hpos
      have h2 : (audioEnt r).size_bytes = sizeBytes r := rfl
      rw [h2, hr0] at hpos
      exact lt_irrefl 0 hpos
    · intro r r2 k _ hr2 _ _ hr0 hc2 hk2 hr2pos v hv hkv
      have h1 := catalog_video_max formats vids auds hok v hv r2 hr2 k hc2 hk2 hkv
      have hpos : 0 < v.size_bytes := lt_of_lt_of_le hr2pos h1
      refine ⟨hpos, fun heq => ?_⟩
      rw [heq] at hpos
      have h2 : (mkVideoEntry r).size_bytes = sizeBytes r := rfl
      rw [h2, hr0] at hpos
      exact lt_irrefl 0 hpos

def c10rA : RawFormat :=
  { format_id := .str ("x"), ext := .str ("m4a"), vcodec := .str ("none"),
    acodec := .str ("mp4a"), protocol := .str ("https"), filesize := .pfloat false }

def c10rB : RawFormat :=
  { format_id := .str ("y"), ext := .str ("m4a"), vcodec := .str ("none"),
    acodec := .str ("mp4a"), protocol := .str ("https"), filesize := .pint 500000 }

def c10exFormats : List RawFormat := [c10rA, c10rB]

def c10exOut : List FmtEntry × List FmtEntry :=
  ((on_formats_fetched c10exFormats).toOption).getD ([], [])

theorem c10_size_semantics_witness :
    sizeBytes c10rB = 500000 ∧ sizeBytes c10rA = 0 ∧
    (mkAudioEntry c10rA ("m4a")).size_str = SizeStr.na ∧
    (∀ a ∈ c10exOut.2, a.ext = some ("m4a") →
      0 < a.size_bytes ∧ a ≠ audioEnt c10rA) :=
  ⟨c10_size_semantics.1 c10rB 500000 rfl,
   c10_size_semantics.2.1 c10rA (fun n h => by
     rw [show effSize c10rA = PySize.pfloat false from rfl] at h
     exact PySize.noConfusion h),
   (c10_size_semantics.2.2.1 c10rA (by decide)).2 ("m4a"),
   (c10_size_semantics.2.2.2 c10exFormats c10exOut.1 c10exOut.2 rfl).1
     c10rA c10rB ("m4a") (by decide) (by decide) (by decide) (by decide)
     (by decide) (by decide)⟩

/- No keyword group of the classifier matches the lower-cased text. -/
def noKeywordMatch (s : String) : Bool :=
  !(classifierGroups.any (fun g => anyKw (pyLower s) g.keywords))

theorem classifyList_generic (s : String) :
    ∀ gs : List KwGroup, (∀ g ∈ gs, anyKw (pyLower s) g.keywords = false) →
    classifyList s gs = (("GENERIC"), ("❌ Error: ") ++ pyTake s 100) := by
  intro gs
  induction gs with
  | nil => intro; rfl
  | cons g rest ih =>
    intro hall
    rw [classifyList, hall g (List.mem_cons_self _ _)]
    simp only [Bool.false_eq_true, if_false]
    exact ih fun g2 hg2 => hall g2 (List.mem_cons_of_mem _ hg2)

/-- C4: the error classifier is total, classifies the lower-cased text by
first match over the fixed ordered keyword groups (NETWORK, AUTH,
NOT_FOUND, AGE_RESTRICTED, GEO_BLOCKED, FORMAT, RATE_LIMIT, PERMISSION,
DISK_SPACE), maps text containing dns or connection timed out to NETWORK,
and otherwise returns GENERIC with the message truncated to 100
characters. -/
theorem c4_classifier_total_ordered :
    (∀ s : String, ∃ km : String × String, get_error_message s = km) ∧
    (∀ s : String, get_error_message s = classifySpec s) ∧
    (∀ s : String, strContains s ("dns") = true →
      (get_error_message s).1 = ("NETWORK")) ∧
    (∀ s : String, strContains s ("connection timed out") = true →
      (get_error_message s).1 = ("NETWORK")) ∧
    (∀ s : String, noKeywordMatch s = true →
      get_error_message s = (("GENERIC"), ("❌ Error: ") ++ pyTake s 100)) := by
  refine ⟨fun s => ⟨get_error_message s, rfl⟩, get_error_message_eq_spec, ?_, ?_, ?_⟩
  · intro s hdns
    rw [get_error_message_eq_spec]
    have h1 : strContains (pyLower s) ("dns") = true :=
      strContains_pyLower s ("dns") (by decide) hdns
    have h2 : anyKw (pyLower s)
        ["getaddrinfo", "dns", "network", "connection", "no route"] = true :=
      List.any_eq_true.2 ⟨("dns"), by decide, h1⟩
    simp [classifySpec, classifierGroups, classifyList, h2]
  · intro s hto
    rw [get_error_message_eq_spec]
    have h0 : strContains s ("connection") = true :=
      strContains_of_infix s ("connection") ("connection timed out") (by decide) hto
    have h1 : strContains (pyLower s) ("connection") = true :=
      strContains_pyLower s ("connection") (by decide) h0
    have h2 : anyKw (pyLower s)
        ["getaddrinfo", "dns", "network", "connection", "no route"] = true :=
      List.any_eq_true.2 ⟨("connection"), by decide, h1⟩
    simp [classifySpec, classifierGroups, classifyList, h2]
  · intro s hnm
    rw [get_error_message_eq_spec, classifySpec]
    apply classifyList_generic
    rw [noKeywordMatch, Bool.not_eq_eq_eq_not, Bool.not_true, List.any_eq_false] at hnm
    exact fun g hg => Bool.eq_false_iff.2 (hnm g hg)

theorem c4_classifier_total_ordered_witness :
    (get_error_message ("the dns lookup failed")).1 = ("NETWORK") ∧
    (get_error_message ("err: connection timed out!")).1 = ("NETWORK") ∧
    get_error_message ("zzz") = (("GENERIC"), ("❌ Error: ") ++ pyTake ("zzz") 100) :=
  ⟨c4_classifier_total_ordered.2.2.1 ("the dns lookup failed") (by decide),
   c4_classifier_total_ordered.2.2.2.1 ("err: connection timed out!") (by decide),
   c4_classifier_total_ordered.2.2.2.2 ("zzz") (by decide)⟩

theorem parseDecimal_nonneg (g : List Char) : 0 ≤ parseDecimal g := by
  rw [parseDecimal]
  split
  · positivity
  · positivity

theorem findPercent_nonneg (line : String) (p : ℚ) (h : findPercent line = some p) :
    0 ≤ p := by
  rw [findPercent] at h
  cases haux : findPercentAux line.data with
  | none => rw [haux] at h; exact absurd h (by simp)
  | some g =>
    rw [haux] at h
    have hp : p = parseDecimal g := (Option.some_inj.1 (Option.map_some' .. ▸ h)).symm
    rw [hp]
    exact parseDecimal_nonneg g

/- One observed progress event: the emitted line with its wall time. -/
def stepEv (s : OrchState) (ev : String × ℚ) : OrchState :=
  update_progress s ev.1 ev.2

def runTrace (s : OrchState) (evs : List (String × ℚ)) : OrchState :=
  evs.foldl stepEv s

/- All states a trace passes through, the initial one included. -/
def traceStates (s : OrchState) : List (String × ℚ) → List OrchState
  | [] => [s]
  | ev :: evs => s :: traceStates (stepEv s ev) evs

/- Once the merging phase is entered the progress handler is inert. -/
theorem update_progress_frozen (s : OrchState) (line : String) (t : ℚ)
    (hm : s.is_merging_phase = true) (hd : s.is_downloading_phase = false) :
    update_progress s line t = s := by
  unfold update_progress
  cases hml : isMergeLine line
  · simp only [Bool.false_eq_true, if_false]
    cases findPercent line <;> simp [hd]
  · simp [hm]

theorem runTrace_frozen (s : OrchState) (evs : List (String × ℚ))
    (hm : s.is_merging_phase = true) (hd : s.is_downloading_phase = false) :
    runTrace s evs = s := by
  induction evs with
  | nil => rfl
  | cons ev rest ih =>
    rw [runTrace, List.foldl_cons,
      show stepEv s ev = s from update_progress_frozen s ev.1 ev.2 hm hd]
    exact ih

/- The temp cleanup touches only the temp_exists flag. -/
theorem cleanup_progressValue (s : OrchState) :
    (cleanup_temp s).progressValue = s.progressValue := by
  unfold cleanup_temp
  split <;> rfl

theorem cleanup_status (s : OrchState) : (cleanup_temp s).status = s.status := by
  unfold cleanup_temp
  split <;> rfl

theorem cleanup_is_downloading (s : OrchState) :
    (cleanup_temp s).is_downloading = s.is_downloading := by
  unfold cleanup_temp
  split <;> rfl

theorem cleanup_url_input (s : OrchState) :
    (cleanup_temp s).url_input_enabled = s.url_input_enabled := by
  unfold cleanup_temp
  split <;> rfl

theorem cleanup_browse_btn (s : OrchState) :
    (cleanup_temp s).browse_btn_enabled = s.browse_btn_enabled := by
  unfold cleanup_temp
  split <;> rfl

theorem cleanup_cancel_btn (s : OrchState) :
    (cleanup_temp s).cancel_btn_visible = s.cancel_btn_visible := by
  unfold cleanup_temp
  split <;> rfl

theorem cleanup_clears (s : OrchState) (h : s.temp_folder = true) :
    (cleanup_temp s).temp_exists = false := by
  unfold cleanup_temp
  cases he : s.temp_exists <;> simp [h, he]

/-- C1: while the phase is Downloading, an applied percent update displays
exactly min floor(p * 0.95) 95 and never exceeds 95; an update is applied
only when more than 0.1 seconds have passed since the last applied update;
the first merge line forces 95 with the merging status; and a successful
completion after the file move forces 100. -/
theorem c1_progress_mapping :
    (∀ (s : OrchState) (line : String) (t p : ℚ),
      isMergeLine line = false → findPercent line = some p →
      s.is_downloading_phase = true → t - s.last_progress_update > 1/10 →
      (update_progress s line t).progressValue
          = min (Rat.floor (p * (95/100))) 95 ∧
        (update_progress s line t).progressValue ≤ 95) ∧
    (∀ (s : OrchState) (line : String) (t p : ℚ),
      isMergeLine line = false → findPercent line = some p →
      s.is_downloading_phase = true → ¬(t - s.last_progress_update > 1/10) →
      update_progress s line t = s) ∧
    (∀ (s : OrchState) (line : String) (t : ℚ),
      isMergeLine line = true → s.is_merging_phase = false →
      (update_progress s line t).progressValue = 95 ∧
        (update_progress s line t).status = StatusMsg.merging ∧
        (update_progress s line t).is_merging_phase = true) ∧
    (∀ (s : OrchState) (path : String), path ≠ "" →
      (download_finished s 0 path true MoveOutcome.ok).progressValue = 100 ∧
        (download_finished s 0 path true MoveOutcome.ok).status
          = StatusMsg.completed) := by
  refine ⟨?_, ?_, ?_, ?_⟩
  · intro s line t p hml hp hd ht
    have hnn : (0 : ℚ) ≤ p * (95/100) :=
      mul_nonneg (findPercent_nonneg line p hp) (by norm_num)
    unfold update_progress
    simp only [hml, Bool.false_eq_true, if_false, hp, hd, if_true, ht]
    rw [pyInt_of_nonneg _ hnn]
    exact ⟨rfl, min_le_right _ _⟩
  · intro s line t p hml hp hd ht
    unfold update_progress
    simp only [hml, Bool.false_eq_true, if_false, hp, hd, if_true, ht]
  · intro s line t hml hm
    unfold update_progress
    simp [hml, hm]
  · intro s path hpath
    unfold download_finished
    rw [if_pos ⟨rfl, hpath, rfl⟩]
    rw [cleanup_progressValue, cleanup_status]
    exact ⟨rfl, rfl⟩

theorem c1_progress_mapping_witness :
    (update_progress (start_download_state initialState) ("40%") 1).progressValue
        = min (Rat.floor ((40 : ℚ) * (95/100))) 95 ∧
      (update_progress (start_download_state initialState)
        ("Processing payload") 2).progressValue = 95 ∧
      (download_finished (start_download_state initialState) 0 ("f.mp4") true
        MoveOutcome.ok).progressValue = 100 :=
  ⟨(c1_progress_mapping.1 (start_download_state initialState) ("40%") 1 40
      (by decide)
      (by rw [show findPercent ("40%")
            = some ((digitsToNat ['4', '0'] : ℕ) : ℚ) from rfl,
            show digitsToNat ['4', '0'] = 40 from rfl]
          norm_num)
      rfl
      (by rw [show (start_download_state initialState).last_progress_update = 0
            from rfl]
          norm_num)).1,
   (c1_progress_mapping.2.2.1 (start_download_state initialState)
      ("Processing payload") 2 (by decide) rfl).1,
   (c1_progress_mapping.2.2.2 (start_download_state initialState) ("f.mp4")
      (by decide)).1⟩

/-- C6: the merging transition is one-way within a download: the first
merge line sets the merging phase and clears the downloading phase, and
from any merging state every further progress line, in particular every
downloading-style percent line, leaves the state unchanged. -/
theorem c6_merging_one_way :
    (∀ (s : OrchState) (line : String) (t : ℚ),
      isMergeLine line = true → s.is_merging_phase = false →
      (update_progress s line t).is_merging_phase = true ∧
        (update_progress s line t).is_downloading_phase = false) ∧
    (∀ (s : OrchState) (line : String) (t : ℚ),
      s.is_merging_phase = true → s.is_downloading_phase = false →
      update_progress s line t = s) ∧
    (∀ (s : OrchState) (evs : List (String × ℚ)),
      s.is_merging_phase = true → s.is_downloading_phase = false →
      runTrace s evs = s) := by
  refine ⟨?_, update_progress_frozen, runTrace_frozen⟩
  intro s line t hml hm
  unfold update_progress
  simp [hml, hm]

theorem c6_merging_one_way_witness :
    ((update_progress (start_download_state initialState)
        ("[ffmpeg] Merging formats into out.mp4") 1).is_merging_phase = true ∧
      (update_progress (start_download_state initialState)
        ("[ffmpeg] Merging formats into out.mp4") 1).is_downloading_phase = false) ∧
    update_progress
        (update_progress (start_download_state initialState)
          ("[ffmpeg] Merging formats into out.mp4") 1) ("[download] 50%") 2
      = update_progress (start_download_state initialState)
          ("[ffmpeg] Merging formats into out.mp4") 1 :=
  ⟨c6_merging_one_way.1 (start_download_state initialState)
      ("[ffmpeg] Merging formats into out.mp4") 1 (by decide) rfl,
   c6_merging_one_way.2.1 _ ("[download] 50%") 2 rfl rfl⟩

/- Terminal shape every finished session must leave behind. -/
def terminalOK (s : OrchState) : Prop :=
  s.is_downloading = false ∧ s.url_input_enabled = true ∧
    s.browse_btn_enabled = true ∧ s.cancel_btn_visible = false ∧
    s.temp_exists = false

/-- C7: every terminal path, namely download_finished in all of its branch
combinations, the worker error handler, and the cancel handler, leaves the
orchestrator non-downloading with the cancel control hidden and the inputs
re-enabled, and destroys the session's temp staging directory. -/
theorem c7_terminal_cleanup :
    (∀ (s : OrchState) (ec : Int) (path : String) (isf : Bool) (mv : MoveOutcome),
      s.temp_folder = true → terminalOK (download_finished s ec path isf mv)) ∧
    (∀ (s : OrchState) (msg : String), s.temp_folder = true →
      terminalOK (on_download_error s msg)) ∧
    (∀ s : OrchState, s.temp_folder = true → terminalOK (cancel_download s)) := by
  refine ⟨?_, ?_, ?_⟩
  · intro s ec path isf mv htf
    unfold download_finished terminalOK
    split
    · cases mv <;>
        exact ⟨by rw [cleanup_is_downloading]; rfl,
               by rw [cleanup_url_input]; rfl,
               by rw [cleanup_browse_btn]; rfl,
               by rw [cleanup_cancel_btn]; rfl,
               cleanup_clears _ htf⟩
    · exact ⟨by rw [cleanup_is_downloading]; rfl,
             by rw [cleanup_url_input]; rfl,
             by rw [cleanup_browse_btn]; rfl,
             by rw [cleanup_cancel_btn]; rfl,
             cleanup_clears _ htf⟩
  · intro s msg htf
    unfold on_download_error terminalOK
    refine ⟨rfl, rfl, rfl, rfl, ?_⟩
    show (cleanup_temp s).temp_exists = false
    exact cleanup_clears s htf
  · intro s htf
    unfold cancel_download terminalOK
    exact ⟨by rw [cleanup_is_downloading]; rfl,
           by rw [cleanup_url_input]; rfl,
           by rw [cleanup_browse_btn]; rfl,
           by rw [cleanup_cancel_btn]; rfl,
           cleanup_clears _ htf⟩

theorem c7_terminal_cleanup_witness :
    terminalOK (download_finished (start_download_state initialState) 0 ("f.mp4")
        true MoveOutcome.ok) ∧
      terminalOK (download_finished (start_download_state initialState) 0 ("f.mp4")
        true (MoveOutcome.permError ("denied"))) ∧
      terminalOK (download_finished (start_download_state initialState) 1 ("")
        false MoveOutcome.ok) ∧
      terminalOK (on_download_error (start_download_state initialState)
        ("🌐 Network error")) ∧
      terminalOK (cancel_download (start_download_state initialState)) :=
  ⟨c7_terminal_cleanup.1 (start_download_state initialState) 0 ("f.mp4") true
      MoveOutcome.ok rfl,
   c7_terminal_cleanup.1 (start_download_state initialState) 0 ("f.mp4") true
      (MoveOutcome.permError ("denied")) rfl,
   c7_terminal_cleanup.1 (start_download_state initialState) 1 ("") false
      MoveOutcome.ok rfl,
   c7_terminal_cleanup.2.1 (start_download_state initialState) ("🌐 Network error") rfl,
   c7_terminal_cleanup.2.2 (start_download_state initialState) rfl⟩

/- Step-shape lemmas for update_progress, one per branch of the source. -/
theorem update_progress_applied (s : OrchState) (line : String) (t p : ℚ)
    (hml : isMergeLine line = false) (hp : findPercent line = some p)
    (hd : s.is_downloading_phase = true)
    (ht : t - s.last_progress_update > 1/10) :
    update_progress s line t =
      { s with progressValue := min (pyInt (p * (95/100))) 95
               status := .downloadingPct (pyInt p)
               last_progress_update := t } := by
  unfold update_progress
  simp only [hml, Bool.false_eq_true, if_false, hp, hd, if_true, ht]

theorem update_progress_skip (s : OrchState) (line : String) (t p : ℚ)
    (hml : isMergeLine line = false) (hp : findPercent line = some p)
    (hd : s.is_downloading_phase = true)
    (ht : ¬(t - s.last_progress_update > 1/10)) :
    update_progress s line t = s := by
  unfold update_progress
  simp only [hml, Bool.false_eq_true, if_false, hp, hd, if_true, ht]

theorem update_progress_merge (s : OrchState) (line : String) (t : ℚ)
    (hml : isMergeLine line = true) (hm : s.is_merging_phase = false) :
    update_progress s line t =
      { s with is_merging_phase := true
               is_downloading_phase := false
               progressValue := 95
               status := .merging } := by
  unfold update_progress
  simp [hml, hm]

theorem update_progress_nopct (s : OrchState) (line : String) (t : ℚ)
    (hml : isMergeLine line = false) (hp : findPercent line = none) :
    update_progress s line t = s := by
  unfold update_progress
  simp [hml, hp]

/- The percent values the trace carries on its non-merge lines. -/
def tracePcts (evs : List (String × ℚ)) : List ℚ :=
  evs.filterMap (fun ev => if isMergeLine ev.1 then none else findPercent ev.1)

theorem tracePcts_nonneg (evs : List (String × ℚ)) :
    ∀ q ∈ tracePcts evs, 0 ≤ q := by
  intro q hq
  rcases List.mem_filterMap.1 hq with ⟨ev, _, hev⟩
  by_cases hml : isMergeLine ev.1 = true
  · rw [if_pos hml] at hev
    exact absurd hev (by simp)
  · rw [if_neg hml] at hev
    exact findPercent_nonneg ev.1 q hev

/- Scaled display value of a raw percent, as the downloading branch maps it. -/
def clampPct (p : ℚ) : Int :=
  min (pyInt (p * (95/100))) 95

theorem clampPct_le_95 (p : ℚ) : clampPct p ≤ 95 :=
  min_le_right _ _

theorem clampPct_nonneg (p : ℚ) (hp : 0 ≤ p) : 0 ≤ clampPct p := by
  unfold clampPct
  rw [pyInt_of_nonneg _ (mul_nonneg hp (by norm_num))]
  refine le_min ?_ (by norm_num)
  rw [show (0 : Int) = Rat.floor 0 from rfl]
  exact Rat.floor_mono (mul_nonneg hp (by norm_num))

theorem clampPct_mono {p q : ℚ} (hp : 0 ≤ p) (hle : p ≤ q) :
    clampPct p ≤ clampPct q := by
  unfold clampPct
  have hq : 0 ≤ q := le_trans hp hle
  rw [pyInt_of_nonneg _ (mul_nonneg hp (by norm_num)),
    pyInt_of_nonneg _ (mul_nonneg hq (by norm_num))]
  exact min_le_min
    (Rat.floor_mono (mul_le_mul_of_nonneg_right hle (by norm_num))) (le_refl _)

theorem traceStates_head (s : OrchState) (evs : List (String × ℚ)) :
    (traceStates s evs).head? = some s := by
  cases evs <;> rfl

theorem runTrace_mem_traceStates (evs : List (String × ℚ)) :
    ∀ s : OrchState, runTrace s evs ∈ traceStates s evs := by
  induction evs with
  | nil => intro s; exact List.mem_singleton.2 rfl
  | cons ev rest ih =>
    intro s
    rw [runTrace, List.foldl_cons, traceStates]
    exact List.mem_cons_of_mem _ (ih (stepEv s ev))

/- Invariant carried along a download trace: the display never exceeds 95
and the phase flags are in one of their two reachable configurations. -/
def GoodProg (s : OrchState) : Prop :=
  s.progressValue ≤ 95 ∧
    ((s.is_downloading_phase = true ∧ s.is_merging_phase = false) ∨
     (s.is_downloading_phase = false ∧ s.is_merging_phase = true))

/- While downloading, the display is below the clamp of the next percent. -/
def BoundNext (s : OrchState) (evs : List (String × ℚ)) : Prop :=
  s.is_downloading_phase = true →
    ∀ p ∈ (tracePcts evs).head?, s.progressValue ≤ clampPct p

theorem c8_main : ∀ (evs : List (String × ℚ)) (s : OrchState),
    GoodProg s → BoundNext s evs → List.Chain' (· ≤ ·) (tracePcts evs) →
    List.Chain' (· ≤ ·) ((traceStates s evs).map OrchState.progressValue) ∧
    ∀ st ∈ traceStates s evs, st.progressValue ≤ 95 := by
  intro evs
  induction evs with
  | nil =>
    intro s hg _ _
    refine ⟨List.chain'_singleton _, ?_⟩
    intro st hst
    rw [traceStates] at hst
    rw [List.mem_singleton.1 hst]
    exact hg.1
  | cons ev rest ih =>
    intro s hg hb hchain
    have hfacts : s.progressValue ≤ (stepEv s ev).progressValue ∧
        GoodProg (stepEv s ev) ∧ BoundNext (stepEv s ev) rest ∧
        List.Chain' (· ≤ ·) (tracePcts rest) := by
      by_cases hml : isMergeLine ev.1 = true
      · have hpct : tracePcts (ev :: rest) = tracePcts rest := by
          simp [tracePcts, List.filterMap_cons, hml]
        rcases hg.2 with ⟨hd, hm⟩ | ⟨hd, hm⟩
        · have he : stepEv s ev =
              { s with
                  is_merging_phase := true, is_downloading_phase := false,
                  progressValue := 95, status := .merging } :=
            update_progress_merge s ev.1 ev.2 hml hm
          refine ⟨?_, ?_, ?_, hpct ▸ hchain⟩
          · rw [he]; exact hg.1
          · rw [he]; exact ⟨le_refl 95, Or.inr ⟨rfl, rfl⟩⟩
          · rw [he]
            intro hdd
            exact Bool.noConfusion hdd
        · have he : stepEv s ev = s := update_progress_frozen s ev.1 ev.2 hm hd
          refine ⟨by rw [he], by rw [he]; exact hg, ?_, hpct ▸ hchain⟩
          rw [he]
          intro hdd
          rw [hdd] at hd
          exact Bool.noConfusion hd
      · have hml2 : isMergeLine ev.1 = false := Bool.eq_false_iff.2 hml
        cases hp : findPercent ev.1 with
        | none =>
          have hpct : tracePcts (ev :: rest) = tracePcts rest := by
            simp [tracePcts, List.filterMap_cons, hml2, hp]
          have he : stepEv s ev = s := update_progress_nopct s ev.1 ev.2 hml2 hp
          refine ⟨by rw [he], by rw [he]; exact hg, ?_, hpct ▸ hchain⟩
          rw [he]
          intro hdd p2 hp2
          exact hb hdd p2 (by rw [← hpct] at hp2; exact hp2)
        | some p =>
          have hpct : tracePcts (ev :: rest) = p :: tracePcts rest := by
            simp [tracePcts, List.filterMap_cons, hml2, hp]
          have hpn : 0 ≤ p := findPercent_nonneg ev.1 p hp
          have hchain2 := hpct ▸ hchain
          rw [List.chain'_cons'] at hchain2
          rcases hg.2 with ⟨hd, hm⟩ | ⟨hd, hm⟩
          · have hsb : s.progressValue ≤ clampPct p := by
              refine hb hd p ?_
              rw [hpct]
              rfl
            by_cases ht : ev.2 - s.last_progress_update > 1/10
            · have he : stepEv s ev =
                  { s with
                      progressValue := clampPct p,
                      status := .downloadingPct (pyInt p),
                      last_progress_update := ev.2 } :=
                update_progress_applied s ev.1 ev.2 p hml2 hp hd ht
              refine ⟨?_, ?_, ?_, hchain2.2⟩
              · rw [he]; exact hsb
              · rw [he]; exact ⟨clampPct_le_95 p, Or.inl ⟨hd, hm⟩⟩
              · rw [he]
                intro _ p2 hp2
                exact clampPct_mono hpn (hchain2.1 p2 hp2)
            · have he : stepEv s ev = s := update_progress_skip s ev.1 ev.2 p hml2 hp hd ht
              refine ⟨by rw [he], by rw [he]; exact hg, ?_, hchain2.2⟩
              rw [he]
              intro _ p2 hp2
              exact le_trans hsb (clampPct_mono hpn (hchain2.1 p2 hp2))
          · have he : stepEv s ev = s := update_progress_frozen s ev.1 ev.2 hm hd
            refine ⟨by rw [he], by rw [he]; exact hg, ?_, hchain2.2⟩
            rw [he]
            intro hdd
            rw [hdd] at hd
            exact Bool.noConfusion hd
    obtain ⟨hc, hm95⟩ := ih (stepEv s ev) hfacts.2.1 hfacts.2.2.1 hfacts.2.2.2
    constructor
    · rw [traceStates, List.map_cons]
      refine List.chain'_cons'.2 ⟨?_, hc⟩
      intro y hy
      rw [List.head?_map, traceStates_head] at hy
      rw [show y = (stepEv s ev).progressValue from Option.some_inj.1 hy.symm]
      exact hfacts.1
    · intro st hst
      rw [traceStates] at hst
      rcases List.mem_cons.1 hst with h1 | h1
      · rw [h1]; exact hg.1
      · exact hm95 st h1

def c8s0 : OrchState := start_download_state initialState

def c8s1 : OrchState := update_progress c8s0 ("50%") 1

def c8s2 : OrchState := update_progress c8s1 ("40%") 2

/-- C8 counterexample: two percent lines whose raw values decrease produce
a strictly decreasing displayed sequence (47 then 38), so the displayed
progress is not monotonically non-decreasing as the claim states. -/
theorem c8_progress_monotone_counterexample :
    c8s1.progressValue = 47 ∧ c8s2.progressValue = 38 ∧
      ¬(c8s1.progressValue ≤ c8s2.progressValue) := by
  have hp50 : findPercent ("50%") = some 50 := by
    rw [show findPercent ("50%") = some ((digitsToNat ['5', '0'] : ℕ) : ℚ) from rfl,
      show digitsToNat ['5', '0'] = 50 from rfl]
    norm_num
  have hp40 : findPercent ("40%") = some 40 := by
    rw [show findPercent ("40%") = some ((digitsToNat ['4', '0'] : ℕ) : ℚ) from rfl,
      show digitsToNat ['4', '0'] = 40 from rfl]
    norm_num
  have h1 : c8s1 =
      { c8s0 with
          progressValue := min (pyInt ((50 : ℚ) * (95/100))) 95,
          status := .downloadingPct (pyInt 50),
          last_progress_update := 1 } :=
    update_progress_applied c8s0 ("50%") 1 50 (by decide) hp50 rfl
      (by rw [show c8s0.last_progress_update = 0 from rfl]; norm_num)
  have h2 : c8s2 =
      { c8s1 with
          progressValue := min (pyInt ((40 : ℚ) * (95/100))) 95,
          status := .downloadingPct (pyInt 40),
          last_progress_update := 2 } :=
    update_progress_applied c8s1 ("40%") 2 40 (by decide) hp40
      (by rw [h1]; rfl)
      (by rw [h1]; show (2 : ℚ) - 1 > 1/10; norm_num)
  have hv1 : c8s1.progressValue = 47 := by
    rw [h1]
    show min (pyInt ((50 : ℚ) * (95/100))) 95 = 47
    rw [pyInt_of_nonneg _ (by norm_num),
      ratFloor_eval ((50 : ℚ) * (95/100)) 95 2 (by norm_num)]
    decide
  have hv2 : c8s2.progressValue = 38 := by
    rw [h2]
    show min (pyInt ((40 : ℚ) * (95/100))) 95 = 38
    rw [pyInt_of_nonneg _ (by norm_num),
      ratFloor_eval ((40 : ℚ) * (95/100)) 38 1 (by norm_num)]
    decide
  refine ⟨hv1, hv2, ?_⟩
  rw [hv1, hv2]
  decide

/-- C8 (amended): within a single session started by the download-start
reset, if the raw percent values carried by the progress lines are
non-decreasing, then the displayed progress values are non-decreasing,
every traversed state displays at most 95 (so in particular at most 95
while the phase is Downloading), and a successful completion afterwards
forces 100, which dominates the last displayed value. -/
theorem c8_progress_monotone_amended (init : OrchState) (evs : List (String × ℚ))
    (hchain : List.Chain' (· ≤ ·) (tracePcts evs)) :
    List.Chain' (· ≤ ·)
      ((traceStates (start_download_state init) evs).map OrchState.progressValue) ∧
    (∀ st ∈ traceStates (start_download_state init) evs, st.progressValue ≤ 95) ∧
    ∀ path : String, path ≠ "" →
      (download_finished (runTrace (start_download_state init) evs) 0 path true
          MoveOutcome.ok).progressValue = 100 ∧
        (runTrace (start_download_state init) evs).progressValue ≤ 95 := by
  have hg : GoodProg (start_download_state init) :=
    ⟨by show (0 : Int) ≤ 95; norm_num, Or.inl ⟨rfl, rfl⟩⟩
  have hb : BoundNext (start_download_state init) evs := by
    intro _ p hp
    have hpn : 0 ≤ p :=
      tracePcts_nonneg evs p (List.mem_of_mem_head? hp)
    show (0 : Int) ≤ clampPct p
    exact clampPct_nonneg p hpn
  obtain ⟨hc, h95⟩ := c8_main evs (start_download_state init) hg hb hchain
  refine ⟨hc, h95, ?_⟩
  intro path hpath
  constructor
  · unfold download_finished
    rw [if_pos ⟨rfl, hpath, rfl⟩]
    rw [cleanup_progressValue]
  · exact h95 _ (runTrace_mem_traceStates evs _)

theorem c8_progress_monotone_amended_witness :
    List.Chain' (· ≤ ·)
      ((traceStates (start_download_state initialState)
        [(("50%"), 1), (("Processing"), 2)]).map OrchState.progressValue) ∧
    (∀ st ∈ traceStates (start_download_state initialState)
        [(("50%"), 1), (("Processing"), 2)], st.progressValue ≤ 95) ∧
    ∀ path : String, path ≠ "" →
      (download_finished (runTrace (start_download_state initialState)
          [(("50%"), 1), (("Processing"), 2)]) 0 path true
          MoveOutcome.ok).progressValue = 100 ∧
        (runTrace (start_download_state initialState)
          [(("50%"), 1), (("Processing"), 2)]).progressValue ≤ 95 :=
  c8_progress_monotone_amended initialState [(("50%"), 1), (("Processing"), 2)]
    (by rw [show tracePcts [(("50%"), 1), (("Processing"), 2)]
          = [((digitsToNat ['5', '0'] : ℕ) : ℚ)] from rfl]
        exact List.chain'_singleton _)

/-- C3 evaluation at the failing input: once the cancel flag is set the
next progress hook call raises the cancelled condition, whatever event it
receives and even before any progress event was processed; the worker maps
that condition to the cancelled terminal result finished_signal(1, ''),
never to an error signal; the cancel handler leaves the Cancelled status,
progress 0 and no temp directory; but when the queued cancelled result is
then delivered, download_finished routes exit code 1 through its generic
no-file branch and overwrites the status, so the final user-visible status
is the no-file-produced message and not the Cancelled one (the temp
directory stays removed and the orchestrator stays non-downloading). -/
theorem c3_cancel_flow_evaluation :
    (∀ d : HookEvent, progress_hook true d = Except.error ()) ∧
    run_result RunBody.excCancelled = WorkerEmit.finishedSig 1 ("") ∧
    (∀ e : RunBody, run_result (bodyOutcome true e) = WorkerEmit.finishedSig 1 ("")) ∧
    (∀ m : String, run_result RunBody.excCancelled ≠ WorkerEmit.errorSig m) ∧
    (cancel_download (start_download_state initialState)).status
        = StatusMsg.cancelledMsg ∧
    (cancel_download (start_download_state initialState)).progressValue = 0 ∧
    (cancel_download (start_download_state initialState)).temp_exists = false ∧
    (cancelFlowFinal (start_download_state initialState)).status
        = StatusMsg.noFileProduced ∧
    StatusMsg.noFileProduced ≠ StatusMsg.cancelledMsg ∧
    (cancelFlowFinal (start_download_state initialState)).temp_exists = false ∧
    (cancelFlowFinal (start_download_state initialState)).is_downloading = false :=
  ⟨fun d => rfl, rfl, fun e => rfl, fun m h => WorkerEmit.noConfusion h,
   rfl, rfl, rfl, rfl, by decide, rfl, rfl⟩
